import Mathlib

/-!
Verification of the two-player Minesweeper repository (client.py / server.py).

The client model embeds the board generator (`MinesweeperMultiplayer.setup`),
the neighbor lookup (`getNeighbors`), the reveal logic (`onClick`, `clearTile`,
`clearSurroundingTiles`) and the flag logic (`onRightClick`).  The server model
embeds the Socket.IO event handlers (`handle_connect`, `handle_player_finished`,
`handle_disconnect`) over the module-level `game_state` dict.

Pure-embedding conventions: Python's `random` stream is a function parameter
(seed → draw index → sample in [0,1)); Tkinter image/button configuration calls
are no-ops except for the `bind`/`unbind` of the left-click handler, which is
tracked because it decides whether a click gesture reaches `onClick` at all;
Socket.IO `emit` calls are collected in an output list; a Python `KeyError`
is an `Except.error`.
-/

set_option maxRecDepth 20000

namespace Minesweeper

/-- `SIZE_X = 10` (client.py). -/
def SIZE_X : Nat := 10

/-- `SIZE_Y = 10` (client.py). -/
def SIZE_Y : Nat := 10

/-- Tile coordinates.  Python indexes the `tiles` dict with arbitrary ints
(`getNeighbors` probes x-1 .. x+1), so coordinates are integers here. -/
abbrev Pos := Int × Int

/-- The tile-state constants `STATE_DEFAULT = 0`, `STATE_CLICKED = 1`,
`STATE_FLAGGED = 2` of client.py. -/
inductive TState where
  | STATE_DEFAULT
  | STATE_CLICKED
  | STATE_FLAGGED
deriving DecidableEq, Repr

open TState

/-- A coordinate pair is a live key of the `tiles` dict iff it is inside the
10×10 grid; any other key raises `KeyError` in Python. -/
def inBounds (p : Pos) : Bool :=
  decide (0 ≤ p.1) && decide (p.1 < (SIZE_X : Int)) &&
  decide (0 ≤ p.2) && decide (p.2 < (SIZE_Y : Int))

/-- The 100 live grid keys as a finite set. -/
def boardPos : Finset Pos :=
  (Finset.Icc (0 : Int) ((SIZE_X : Int) - 1)) ×ˢ (Finset.Icc (0 : Int) ((SIZE_Y : Int) - 1))

/-- The eight candidate neighbor coordinates, in the exact order of the
`coords` list in `getNeighbors`. -/
def neighborOffsets (x y : Int) : List Pos :=
  [(x - 1, y - 1), (x - 1, y), (x - 1, y + 1),
   (x, y - 1), (x, y + 1),
   (x + 1, y - 1), (x + 1, y), (x + 1, y + 1)]

/-- `getNeighbors`: the `try ... except KeyError: pass` keeps exactly the
in-bounds coordinates among the eight offsets. -/
def getNeighbors (p : Pos) : List Pos :=
  (neighborOffsets p.1 p.2).filter inBounds

/-- The per-board data produced by `setup`: the immutable `isMine` flag of each
tile, the per-tile `tile["mines"]` adjacent-mine count, and the total
`self.mines` counter. -/
structure Board where
  isMine : Pos → Bool
  tileMines : Pos → Nat
  mines : Nat

/-- The mutable per-match state of the client: per-tile `tile["state"]`,
`self.clickedCount`, whether `BTN_CLICK` is currently bound on each tile's
button (setup binds it, flagging unbinds it, unflagging rebinds it),
`self.flagCount`, `self.correctFlagCount`, the number of `player_finished`
events emitted so far, and the `self.game_started` / `self.is_game_completed`
flags. -/
structure GState where
  state : Pos → TState
  clickedCount : Nat
  bound : Pos → Bool
  flagCount : Int
  correctFlagCount : Int
  sentCount : Nat
  game_started : Bool
  is_game_completed : Bool

/-- Number of tiles currently in `STATE_DEFAULT` (used as a fuel bound for the
flood-fill recursion; strictly decreases at every recursive call). -/
def defaultsCount (g : GState) : Nat :=
  (boardPos.filter (fun p => g.state p = STATE_DEFAULT)).card

/-- Number of tiles currently in `STATE_CLICKED`. -/
def cardClicked (g : GState) : Nat :=
  (boardPos.filter (fun p => g.state p = STATE_CLICKED)).card

/-- `clearTile`: skip tiles already clicked or flagged, otherwise mark clicked
and increment `clickedCount` (the image configuration is display-only). -/
def clearTile (g : GState) (p : Pos) : GState :=
  if g.state p = STATE_CLICKED ∨ g.state p = STATE_FLAGGED then g
  else { g with state := Function.update g.state p STATE_CLICKED,
                clickedCount := g.clickedCount + 1 }

/-- `clearSurroundingTiles`, with an explicit fuel argument standing for the
recursion depth.  Any fuel exceeding the number of `STATE_DEFAULT` tiles makes
the fuel-exhausted base case unreachable (every recursive call happens right
after a `clearTile` that removed one `STATE_DEFAULT` tile), so the function
with sufficient fuel is exactly the Python recursion; `cst_stable` below proves
the fuel-independence. -/
def cstFuel (b : Board) : Nat → Pos → GState → GState
  | 0, _, g => g
  | fuel + 1, p, g =>
      (getNeighbors p).foldl
        (fun s n =>
          if s.state n = STATE_DEFAULT then
            let s' := clearTile s n
            if b.tileMines n = 0 then cstFuel b fuel n s' else s'
          else s) g

/-- The loop body of `clearSurroundingTiles` (one neighbor of the current
position): clear it if hidden, and recurse into it if it has no adjacent
mines. -/
def cstBody (b : Board) (fuel : Nat) : GState → Pos → GState :=
  fun s n =>
    if s.state n = STATE_DEFAULT then
      let s' := clearTile s n
      if b.tileMines n = 0 then cstFuel b fuel n s' else s'
    else s

/-- `clearSurroundingTiles` at its canonical (sufficient) fuel. -/
def clearSurroundingTiles (b : Board) (p : Pos) (g : GState) : GState :=
  cstFuel b (defaultsCount g + 1) p g

/-- The part of `onClick` between its guards and the completion check: flood
fill when the tile has zero adjacent mines, then mark the clicked tile itself
if the flood fill has not already clicked it. -/
def revealPhase (b : Board) (g : GState) (t : Pos) : GState :=
  let g1 := if b.tileMines t = 0 then clearSurroundingTiles b t g else g
  if g1.state t ≠ STATE_CLICKED then
    { g1 with state := Function.update g1.state t STATE_CLICKED,
              clickedCount := g1.clickedCount + 1 }
  else g1

/-- `onClick`: return early unless the game is started and not completed,
return silently on a mine, otherwise reveal (flood-filling a zero tile), and
emit `player_finished` whenever `clickedCount == SIZE_X*SIZE_Y - self.mines`
holds at the end of the handler. -/
def onClick (b : Board) (g : GState) (t : Pos) : GState :=
  if g.game_started = false ∨ g.is_game_completed = true then g
  else if b.isMine t = true then g
  else
    let g2 := revealPhase b g t
    if g2.clickedCount = SIZE_X * SIZE_Y - b.mines then
      { g2 with sentCount := g2.sentCount + 1 }
    else g2

/-- `onRightClick`: toggle Hidden ↔ Flagged, maintaining the flag counters and
binding/unbinding the left-click handler; clicked tiles are untouched. -/
def onRightClick (b : Board) (g : GState) (t : Pos) : GState :=
  if g.game_started = false ∨ g.is_game_completed = true then g
  else
    match g.state t with
    | STATE_DEFAULT =>
        { g with state := Function.update g.state t STATE_FLAGGED,
                 bound := Function.update g.bound t false,
                 correctFlagCount := g.correctFlagCount + (if b.isMine t then 1 else 0),
                 flagCount := g.flagCount + 1 }
    | STATE_FLAGGED =>
        { g with state := Function.update g.state t STATE_DEFAULT,
                 bound := Function.update g.bound t true,
                 correctFlagCount := g.correctFlagCount - (if b.isMine t then 1 else 0),
                 flagCount := g.flagCount - 1 }
    | STATE_CLICKED => g

/-- A user gesture: left click or right click on a tile. -/
inductive Op where
  | click (p : Pos)
  | flag (p : Pos)

/-- Dispatch of a gesture.  A left click reaches `onClick` only if `BTN_CLICK`
is currently bound on that tile's button; a right click reaches `onRightClick`
whenever the tile's button exists (i.e. the coordinate is on the board). -/
def applyOp (b : Board) (g : GState) : Op → GState
  | .click p => if g.bound p = true then onClick b g p else g
  | .flag p => if inBounds p = true then onRightClick b g p else g

/-- The state right after `setup` ran and `game_start` arrived: all tiles
hidden, all click bindings installed, counters zero, match active. -/
def initialState : GState :=
  { state := fun _ => STATE_DEFAULT, clickedCount := 0,
    bound := fun p => inBounds p, flagCount := 0, correctFlagCount := 0,
    sentCount := 0, game_started := true, is_game_completed := false }

/-- States reachable from the start of a match by a sequence of gestures. -/
def Reachable (b : Board) (g : GState) : Prop :=
  ∃ ops : List Op, g = ops.foldl (applyOp b) initialState

/-- A board is well-formed when each tile's stored `tile["mines"]` field equals
the number of mine tiles among its in-bounds neighbors — exactly what the
second loop of `setup` computes. -/
def WellFormed (b : Board) : Prop :=
  ∀ p ∈ boardPos, b.tileMines p = (getNeighbors p).countP (fun q => b.isMine q)

/-- The connected zero-adjacency closure reached by the flood fill started at
`t` in pre-click state `g`: every neighbor of `t`, plus, recursively, every
neighbor of a reached tile that was hidden and has zero adjacent mines. -/
inductive ZReach (b : Board) (g : GState) (t : Pos) : Pos → Prop where
  | base : ∀ q, q ∈ getNeighbors t → ZReach b g t q
  | step : ∀ z q, ZReach b g t z → g.state z = STATE_DEFAULT → b.tileMines z = 0 →
      q ∈ getNeighbors z → ZReach b g t q

/-- Monotone-extension relation between client states: all fields except tile
states and `clickedCount` are unchanged, tile states change only from
`STATE_DEFAULT` to `STATE_CLICKED` and only on board coordinates, and the
"clickedCount counts the clicked tiles" invariant is preserved.  This is the
shape of every state change performed by the flood fill. -/
def Ext (g g' : GState) : Prop :=
  g'.bound = g.bound ∧ g'.flagCount = g.flagCount ∧
  g'.correctFlagCount = g.correctFlagCount ∧ g'.sentCount = g.sentCount ∧
  g'.game_started = g.game_started ∧ g'.is_game_completed = g.is_game_completed ∧
  (∀ q, g'.state q ≠ g.state q →
     g.state q = STATE_DEFAULT ∧ g'.state q = STATE_CLICKED ∧ q ∈ boardPos) ∧
  (g.clickedCount = cardClicked g → g'.clickedCount = cardClicked g')

/-- The precondition under which `clearSurroundingTiles` is invoked on a
position `p` during a flood fill that started at `t` in state `g0`: either `p`
is the originally clicked tile, or `p` was reached by the fill, was hidden in
`g0`, and has zero adjacent mines. -/
def Justified (b : Board) (g0 : GState) (t : Pos) (p : Pos) : Prop :=
  p = t ∨ (ZReach b g0 t p ∧ g0.state p = STATE_DEFAULT ∧ b.tileMines p = 0)

/-- `clickedCount` equals the number of tiles in `STATE_CLICKED`. -/
def CountInv (g : GState) : Prop := g.clickedCount = cardClicked g

/-- `BTN_CLICK` is bound exactly on the board tiles that are not flagged
(`setup` binds every tile, `onRightClick` unbinds on flag / rebinds on
unflag). -/
def BoundInv (g : GState) : Prop :=
  ∀ p, g.bound p = true ↔ (inBounds p = true ∧ g.state p ≠ STATE_FLAGGED)

/-! ## Board generation (`setup`) -/

/-- One cell of the generation loop: draw the next uniform sample from the
stream `u`, place a mine iff it is below 0.1, bump the draw index and the
`self.mines` counter. -/
structure GenAcc where
  isMine : Pos → Bool
  draws : Nat
  mines : Nat

/-- Whether the `i`-th draw of stream `u` places a mine:
`random.uniform(0.0, 1.0) < 0.1`. -/
def mineAt (u : Nat → ℚ) (i : Nat) : Bool := decide (u i < 1 / 10)

/-- Body of the inner loop of `setup` for cell `(x, y)`. -/
def setupCell (u : Nat → ℚ) (x y : Nat) (acc : GenAcc) : GenAcc :=
  let m := mineAt u acc.draws
  { isMine := Function.update acc.isMine ((x : Int), (y : Int)) m,
    draws := acc.draws + 1,
    mines := acc.mines + (if m then 1 else 0) }

/-- The inner `for y in range(0, SIZE_Y)` loop of `setup`. -/
def setupRow (u : Nat → ℚ) (acc : GenAcc) (x : Nat) : GenAcc :=
  (List.range SIZE_Y).foldl (fun a y => setupCell u x y a) acc

/-- The outer `for x in range(0, SIZE_X)` loop of `setup`. -/
def setupGrid (u : Nat → ℚ) : GenAcc :=
  (List.range SIZE_X).foldl (setupRow u) ⟨fun _ => false, 0, 0⟩

/-- `setup` run against the pseudo-random stream `u` (the stream obtained after
`random.seed(board_seed)`): phase one places the mines drawing one sample per
cell in row-major order, phase two fills each tile's `tile["mines"]` with the
mine count of its neighbors. -/
def setupBoard (u : Nat → ℚ) : Board :=
  let acc := setupGrid u
  { isMine := acc.isMine, mines := acc.mines,
    tileMines := fun p => (getNeighbors p).countP (fun q => acc.isMine q) }

/-- Board generation from a seed, with the PRNG algorithm abstracted as a
function `prng : seed → draw index → sample`: `random.seed(seed)` resets the
stream to `prng seed`, after which `setup` consumes it sequentially. -/
def generate (prng : Int → Nat → ℚ) (seed : Int) : Board :=
  setupBoard (prng seed)

/-! ## Server model (`server.py`) -/

/-- One entry of `game_state['players']`: the assigned label and the recorded
`finished_time` (`None` until a report arrives; `data.get('game_time')` can
itself be `None`).  The `connected_at` timestamp is display-only and omitted. -/
structure Player where
  id : String
  finished_time : Option String
deriving DecidableEq, Repr

/-- `game_state`: the players dict in insertion order, `board_seed`,
`game_started`, `game_finished`. -/
structure ServerState where
  players : List (String × Player)
  board_seed : Option Int
  game_started : Bool
  game_finished : Bool
deriving DecidableEq, Repr

/-- Events emitted by the server handlers, in emission order. -/
inductive SEvent where
  | connection_error (room : String) (message : String)
  | player_connected (room : String) (player_id : String) (board_seed : Option Int)
      (total_players : Nat)
  | game_start (room : String) (board_seed : Option Int)
  | game_over (room : String) (winner : Option String) (times : List (String × Option String))
deriving DecidableEq, Repr

/-- Python truthiness of a recorded `finished_time`: `None` and the empty
string are falsy (`if player['finished_time']`). -/
def truthyTime : Option String → Bool
  | none => false
  | some s => !s.isEmpty

/-- Python truthiness of `game_state['board_seed']`
(`if not game_state['board_seed']`). -/
def seedTruthy : Option Int → Bool
  | none => false
  | some v => v != 0

/-- Dict lookup on the insertion-ordered association list. -/
def lookupK : List (String × α) → String → Option α
  | [], _ => none
  | kv :: rest, k => if kv.1 = k then some kv.2 else lookupK rest k

/-- Python dict assignment `d[k] = v`: update in place if the key exists,
append otherwise. -/
def dictSet : List (String × α) → String → α → List (String × α)
  | [], k, v => [(k, v)]
  | kv :: rest, k, v => if kv.1 = k then (k, v) :: rest else kv :: dictSet rest k v

/-- `game_state['players'][sid]['finished_time'] = t` once `sid` is known to be
a key: rewrite that entry's time. -/
def setTime (l : List (String × Player)) (k : String) (t : Option String) :
    List (String × Player) :=
  l.map (fun kv => if kv.1 = k then (kv.1, { kv.2 with finished_time := t }) else kv)

/-- Split a character list at every `':'` — the field structure that the
format string `'%H:%M:%S'` imposes (like Python `split(':')`, empty fields
included). -/
def splitColon : List Char → List (List Char)
  | [] => [[]]
  | c :: rest =>
      if c = ':' then [] :: splitColon rest
      else
        match splitColon rest with
        | a :: tail => (c :: a) :: tail
        | [] => [[c]]

/-- Decimal value of a digit run; `none` on any non-digit character. -/
def digitsValAux (acc : Nat) : List Char → Option Nat
  | [] => some acc
  | c :: rest => if c.isDigit then digitsValAux (acc * 10 + (c.toNat - 48)) rest else none

/-- One field match of `datetime.strptime(s, '%H:%M:%S')`: one or two digits
whose value lies in the range `lo..hi`. -/
def parseField (lo hi : Nat) (cs : List Char) : Option Nat :=
  match digitsValAux 0 cs with
  | some v => if 1 ≤ cs.length ∧ cs.length ≤ 2 ∧ lo ≤ v ∧ v ≤ hi then some v else none
  | none => none

/-- `datetime.strptime(s, '%H:%M:%S')`, reduced to the total number of seconds
(all parsed datetimes share the default date, so their comparison order is the
order of these totals); `none` models the `ValueError`.  `%H` accepts 0..23
and `%M` 0..59, each one or two digits.  The `%S` regex of `_strptime` admits
the leap seconds 60 and 61, but `datetime.strptime` then builds a `datetime`,
whose constructor rejects any second above 59 with `ValueError` — so the
composite call accepts exactly 0..59. -/
def strptimeHMS (s : String) : Option Nat :=
  match splitColon s.data with
  | [h, m, sec] =>
      match parseField 0 23 h, parseField 0 59 m, parseField 0 59 sec with
      | some hv, some mv, some sv => some (hv * 3600 + mv * 60 + sv)
      | _, _, _ => none
  | _ => none

/-- The `min(..., key=datetime.strptime)` / `except ValueError` block of
`handle_player_finished`, applied to the (two-element) list of finished
players: if both recorded times parse, the id of the strictly smaller one
(`min` keeps the first element on ties), otherwise the id of the first
finished player in connection order. -/
def arbitrate : List (String × Player) → String
  | (_, p1) :: (_, p2) :: _ =>
      match strptimeHMS (p1.finished_time.getD ""), strptimeHMS (p2.finished_time.getD "") with
      | some v1, some v2 => if v2 < v1 then p2.id else p1.id
      | _, _ => p1.id
  | (_, p1) :: [] => p1.id
  | [] => ""

/-- The dict comprehension
`{player['id']: player['finished_time'] for player in players.values()}`. -/
def timesDict (players : List (String × Player)) : List (String × Option String) :=
  players.foldl (fun acc kv => dictSet acc kv.2.id kv.2.finished_time) []

/-- `handle_disconnect`: drop the slot if present; if fewer than two players
remain, `reset_game()` and emit a null `game_over` to every remaining
player. -/
def handle_disconnect (sid : String) (st : ServerState) : ServerState × List SEvent :=
  let players' := st.players.filter (fun kv => kv.1 ≠ sid)
  if players'.length < 2 then
    (⟨players', none, false, false⟩,
     players'.map (fun kv => SEvent.game_over kv.1 none []))
  else
    ({ st with players := players' }, [])

/-- `handle_connect`.  `fresh` is the value `random.randint(1, 1000000)` would
return if drawn.  When the game is full the handler emits `connection_error`
and calls `sio.disconnect(sid)`, which triggers `handle_disconnect` for the
rejected sid before anything else happens. -/
def handle_connect (fresh : Int) (sid : String) (st : ServerState) :
    ServerState × List SEvent :=
  if 2 ≤ st.players.length then
    let r := handle_disconnect sid st
    (r.1, SEvent.connection_error sid "Game is full" :: r.2)
  else
    let seed : Option Int := if seedTruthy st.board_seed then st.board_seed else some fresh
    let pid : String := if st.players.length = 0 then "Player A" else "Player B"
    let players' := dictSet st.players sid ⟨pid, none⟩
    let ev1 := SEvent.player_connected sid pid seed players'.length
    if players'.length = 2 then
      (⟨players', seed, true, st.game_finished⟩,
       ev1 :: players'.map (fun kv => SEvent.game_start kv.1 seed))
    else
      (⟨players', seed, st.game_started, st.game_finished⟩, [ev1])

/-- `handle_player_finished`.  Returns `Except.error ()` exactly when the
Python handler raises (`game_state['players'][sid]` with an unknown sid). -/
def handle_player_finished (sid : String) (game_time : Option String)
    (st : ServerState) : Except Unit (ServerState × List SEvent) :=
  if st.game_finished = true then .ok (st, [])
  else
    match lookupK st.players sid with
    | none => .error ()
    | some _ =>
        let players' := setTime st.players sid game_time
        let finished := players'.filter (fun kv => truthyTime kv.2.finished_time)
        if finished.length = 2 then
          let winner := arbitrate finished
          let times := timesDict players'
          .ok (⟨players', st.board_seed, st.game_started, true⟩,
               players'.map (fun kv => SEvent.game_over kv.1 (some winner) times))
        else
          .ok (⟨players', st.board_seed, st.game_started, st.game_finished⟩, [])

/-- The empty initial `game_state`. -/
def initialServer : ServerState := ⟨[], none, false, false⟩

/-! ## Concrete boards used as witnesses -/

/-- A board with no mines at all: every tile has zero adjacent mines. -/
def boardEmpty : Board :=
  { isMine := fun _ => false,
    tileMines := fun p => (getNeighbors p).countP (fun q => (fun _ => false : Pos → Bool) q),
    mines := 0 }

/-- A board whose only non-mine tile is `(0, 0)`; `setup` would have counted
99 mines.  Tile `(0, 0)` has three adjacent mines. -/
def board99 : Board :=
  { isMine := fun p => decide (p ≠ ((0 : Int), (0 : Int))),
    tileMines := fun p =>
      (getNeighbors p).countP (fun q => (fun r => decide (r ≠ ((0 : Int), (0 : Int)))) q),
    mines := 99 }

/-! ## Basic lemmas -/

theorem mem_boardPos_iff (p : Pos) : p ∈ boardPos ↔ inBounds p = true := by
  unfold boardPos inBounds
  rcases p with ⟨x, y⟩
  simp only [Finset.mem_product, Finset.mem_Icc, Bool.and_eq_true, decide_eq_true_eq,
    SIZE_X, SIZE_Y]
  omega

theorem getNeighbors_subset {p q : Pos} (h : q ∈ getNeighbors p) : q ∈ boardPos := by
  unfold getNeighbors at h
  rw [List.mem_filter] at h
  exact (mem_boardPos_iff q).2 h.2

theorem ext_refl (g : GState) : Ext g g := by
  refine ⟨rfl, rfl, rfl, rfl, rfl, rfl, ?_, ?_⟩
  · intro q hq; exact absurd rfl hq
  · intro h; exact h

theorem ext_trans {g g' g'' : GState} (h1 : Ext g g') (h2 : Ext g' g'') : Ext g g'' := by
  obtain ⟨b1, f1, c1, s1, gs1, ic1, st1, cc1⟩ := h1
  obtain ⟨b2, f2, c2, s2, gs2, ic2, st2, cc2⟩ := h2
  refine ⟨b2.trans b1, f2.trans f1, c2.trans c1, s2.trans s1, gs2.trans gs1,
    ic2.trans ic1, ?_, fun h => cc2 (cc1 h)⟩
  intro q hq
  by_cases hmid : g'.state q = g.state q
  · have hne : g''.state q ≠ g'.state q := fun h => hq (h.trans hmid)
    obtain ⟨hd, hc, hb⟩ := st2 q hne
    exact ⟨hmid ▸ hd, hc, hb⟩
  · obtain ⟨hd, hc, hb⟩ := st1 q hmid
    by_cases h2q : g''.state q = g'.state q
    · exact ⟨hd, h2q.trans hc, hb⟩
    · obtain ⟨hd2, hc2, hb2⟩ := st2 q h2q
      exact ⟨hd, hc2, hb⟩

theorem ext_state_preserve {g g' : GState} (h : Ext g g') {q : Pos}
    (hq : g.state q ≠ STATE_DEFAULT) : g'.state q = g.state q := by
  obtain ⟨-, -, -, -, -, -, hst, -⟩ := h
  by_cases hch : g'.state q = g.state q
  · exact hch
  · exact absurd (hst q hch).1 hq

theorem ext_nondefault {g g' : GState} (h : Ext g g') {q : Pos}
    (hq : g.state q ≠ STATE_DEFAULT) : g'.state q ≠ STATE_DEFAULT := by
  rw [ext_state_preserve h hq]; exact hq

theorem ext_changed {g g' : GState} (h : Ext g g') {q : Pos}
    (hq : g'.state q ≠ g.state q) :
    g.state q = STATE_DEFAULT ∧ g'.state q = STATE_CLICKED ∧ q ∈ boardPos := by
  obtain ⟨-, -, -, -, -, -, hst, -⟩ := h
  exact hst q hq

theorem ext_defaults_le {g g' : GState} (h : Ext g g') :
    defaultsCount g' ≤ defaultsCount g := by
  unfold defaultsCount
  apply Finset.card_le_card
  intro r hr
  rw [Finset.mem_filter] at hr ⊢
  refine ⟨hr.1, ?_⟩
  by_cases hch : g'.state r = g.state r
  · rw [← hch]; exact hr.2
  · obtain ⟨-, hc, -⟩ := ext_changed h hch
    rw [hr.2] at hc
    exact absurd hc (by decide)

theorem cardClicked_update (g : GState) (q : Pos) (hq : q ∈ boardPos)
    (hd : g.state q = STATE_DEFAULT) :
    (boardPos.filter (fun p => Function.update g.state q STATE_CLICKED p = STATE_CLICKED)).card
      = cardClicked g + 1 := by
  have hset : boardPos.filter (fun p => Function.update g.state q STATE_CLICKED p = STATE_CLICKED)
      = insert q (boardPos.filter (fun p => g.state p = STATE_CLICKED)) := by
    ext r
    by_cases hr : r = q
    · subst hr
      simp [Finset.mem_filter, Function.update_same, hq]
    · simp [Finset.mem_filter, Finset.mem_insert, Function.update_noteq hr, hr]
  rw [cardClicked, hset, Finset.card_insert_of_not_mem]
  rw [Finset.mem_filter]
  intro hmem
  rw [hd] at hmem
  exact absurd hmem.2 (by decide)

theorem clearTile_ext (g : GState) (q : Pos) (hq : q ∈ boardPos) :
    Ext g (clearTile g q) := by
  unfold clearTile
  by_cases h : g.state q = STATE_CLICKED ∨ g.state q = STATE_FLAGGED
  · rw [if_pos h]; exact ext_refl g
  · rw [if_neg h]
    push_neg at h
    have hd : g.state q = STATE_DEFAULT := by
      cases hs : g.state q
      · rfl
      · exact absurd hs h.1
      · exact absurd hs h.2
    refine ⟨rfl, rfl, rfl, rfl, rfl, rfl, ?_, ?_⟩
    · intro r hr
      by_cases hrq : r = q
      · subst hrq
        exact ⟨hd, Function.update_same r STATE_CLICKED g.state, hq⟩
      · exact absurd (Function.update_noteq hrq STATE_CLICKED g.state) hr
    · intro hcc
      show g.clickedCount + 1 =
        (boardPos.filter (fun p => Function.update g.state q STATE_CLICKED p = STATE_CLICKED)).card
      rw [cardClicked_update g q hq hd, hcc]

theorem clearTile_state (g : GState) (q : Pos) (hd : g.state q = STATE_DEFAULT) :
    (clearTile g q).state = Function.update g.state q STATE_CLICKED ∧
    (clearTile g q).clickedCount = g.clickedCount + 1 := by
  unfold clearTile
  rw [if_neg (by rw [hd]; intro h; rcases h with h | h <;> exact absurd h (by decide))]
  exact ⟨rfl, rfl⟩

theorem clearTile_defaults_lt (g : GState) (q : Pos) (hq : q ∈ boardPos)
    (hd : g.state q = STATE_DEFAULT) :
    defaultsCount (clearTile g q) < defaultsCount g := by
  have hst := (clearTile_state g q hd).1
  unfold defaultsCount
  rw [show (clearTile g q).state = _ from hst]
  have hset : boardPos.filter (fun p => Function.update g.state q STATE_CLICKED p = STATE_DEFAULT)
      = (boardPos.filter (fun p => g.state p = STATE_DEFAULT)).erase q := by
    ext r
    by_cases hr : r = q
    · subst hr
      simp [Finset.mem_filter, Finset.mem_erase, Function.update_same]
    · simp [Finset.mem_filter, Finset.mem_erase, Function.update_noteq hr, hr]
  rw [hset]
  exact Finset.card_erase_lt_of_mem (Finset.mem_filter.2 ⟨hq, hd⟩)

theorem foldl_ext (f : GState → Pos → GState) (l : List Pos)
    (hf : ∀ g n, n ∈ l → Ext g (f g n)) (g : GState) :
    Ext g (l.foldl f g) := by
  induction l generalizing g with
  | nil => exact ext_refl g
  | cons n rest ih =>
      exact ext_trans (hf g n (by simp)) (ih (fun g' m hm => hf g' m (by simp [hm])) (f g n))

theorem cst_ext (b : Board) : ∀ fuel p g, Ext g (cstFuel b fuel p g) := by
  intro fuel
  induction fuel with
  | zero => intro p g; exact ext_refl g
  | succ fuel ih =>
      intro p g
      show Ext g ((getNeighbors p).foldl _ g)
      apply foldl_ext
      intro s n hn
      have hnb : n ∈ boardPos := getNeighbors_subset hn
      by_cases hd : s.state n = STATE_DEFAULT
      · rw [if_pos hd]
        by_cases hz : b.tileMines n = 0
        · rw [if_pos hz]
          exact ext_trans (clearTile_ext s n hnb) (ih n (clearTile s n))
        · rw [if_neg hz]
          exact clearTile_ext s n hnb
      · rw [if_neg hd]
        exact ext_refl s

theorem cstBody_ext (b : Board) (fuel : Nat) (s : GState) (n : Pos) (hnb : n ∈ boardPos) :
    Ext s (cstBody b fuel s n) := by
  unfold cstBody
  by_cases hd : s.state n = STATE_DEFAULT
  · rw [if_pos hd]
    by_cases hz : b.tileMines n = 0
    · rw [if_pos hz]
      exact ext_trans (clearTile_ext s n hnb) (cst_ext b fuel n (clearTile s n))
    · rw [if_neg hz]
      exact clearTile_ext s n hnb
  · rw [if_neg hd]
    exact ext_refl s

theorem cst_stable (b : Board) :
    ∀ fuel p g, defaultsCount g < fuel → cstFuel b fuel p g = cstFuel b (fuel + 1) p g := by
  intro fuel
  induction fuel with
  | zero => intro p g h; exact absurd h (Nat.not_lt_zero _)
  | succ fuel ih =>
      intro p g hfuel
      simp only [cstFuel]
      have aux : ∀ (l : List Pos), (∀ n ∈ l, n ∈ boardPos) → ∀ (s : GState),
          defaultsCount s ≤ fuel →
          l.foldl (fun s n => if s.state n = STATE_DEFAULT then
              (let s' := clearTile s n
               if b.tileMines n = 0 then cstFuel b fuel n s' else s') else s) s
          = l.foldl (fun s n => if s.state n = STATE_DEFAULT then
              (let s' := clearTile s n
               if b.tileMines n = 0 then cstFuel b (fuel + 1) n s' else s') else s) s := by
        intro l
        induction l with
        | nil => intro _ s _; rfl
        | cons n rest ihl =>
            intro hl s hs
            have hnb : n ∈ boardPos := hl n (by simp)
            simp only [List.foldl_cons]
            have hbody : (if s.state n = STATE_DEFAULT then
                (let s' := clearTile s n
                 if b.tileMines n = 0 then cstFuel b fuel n s' else s') else s)
                = (if s.state n = STATE_DEFAULT then
                (let s' := clearTile s n
                 if b.tileMines n = 0 then cstFuel b (fuel + 1) n s' else s') else s) := by
              by_cases hd : s.state n = STATE_DEFAULT
              · rw [if_pos hd, if_pos hd]
                by_cases hz : b.tileMines n = 0
                · simp only [if_pos hz]
                  exact ih n (clearTile s n)
                    (Nat.lt_of_lt_of_le (clearTile_defaults_lt s n hnb hd) hs)
                · simp only [if_neg hz]
              · rw [if_neg hd, if_neg hd]
            rw [← hbody]
            apply ihl (fun m hm => hl m (by simp [hm]))
            calc defaultsCount _ ≤ defaultsCount s := ext_defaults_le (cstBody_ext b fuel s n hnb)
              _ ≤ fuel := hs
      exact aux (getNeighbors p) (fun n hn => getNeighbors_subset hn) g (Nat.lt_succ_iff.1 hfuel)

theorem cst_ge (b : Board) (p : Pos) (g : GState) :
    ∀ extra, cstFuel b (defaultsCount g + 1 + extra) p g = clearSurroundingTiles b p g := by
  intro extra
  induction extra with
  | zero => rfl
  | succ e ihe =>
      rw [← ihe]
      exact (cst_stable b (defaultsCount g + 1 + e) p g (by omega)).symm

theorem cstFuel_succ (b : Board) (fuel : Nat) (p : Pos) (g : GState) :
    cstFuel b (fuel + 1) p g = (getNeighbors p).foldl (cstBody b fuel) g := rfl

theorem zreach_of_justified {b : Board} {g0 : GState} {t p n : Pos}
    (hj : Justified b g0 t p) (hn : n ∈ getNeighbors p) : ZReach b g0 t n := by
  rcases hj with rfl | ⟨hz, hd, h0⟩
  · exact ZReach.base n hn
  · exact ZReach.step p n hz hd h0 hn

theorem cst_main (b : Board) (g0 : GState) (t : Pos) :
    ∀ fuel p g, defaultsCount g < fuel → Ext g0 g → Justified b g0 t p →
      (∀ q ∈ getNeighbors p, (cstFuel b fuel p g).state q ≠ STATE_DEFAULT) ∧
      (∀ q, (cstFuel b fuel p g).state q ≠ g.state q → ZReach b g0 t q) ∧
      (∀ z, g.state z = STATE_DEFAULT → (cstFuel b fuel p g).state z = STATE_CLICKED →
        b.tileMines z = 0 →
        ∀ q ∈ getNeighbors z, (cstFuel b fuel p g).state q ≠ STATE_DEFAULT) := by
  intro fuel
  induction fuel with
  | zero => intro p g h; exact absurd h (Nat.not_lt_zero _)
  | succ fuel ih =>
      intro p g hfuel hext hj
      rw [cstFuel_succ]
      have body_facts : ∀ (s : GState) (n : Pos), n ∈ getNeighbors p → Ext g0 s →
          defaultsCount s ≤ fuel →
          Ext s (cstBody b fuel s n) ∧
          (cstBody b fuel s n).state n ≠ STATE_DEFAULT ∧
          (∀ q, (cstBody b fuel s n).state q ≠ s.state q → ZReach b g0 t q) ∧
          (∀ z, s.state z = STATE_DEFAULT → (cstBody b fuel s n).state z = STATE_CLICKED →
            b.tileMines z = 0 →
            ∀ q ∈ getNeighbors z, (cstBody b fuel s n).state q ≠ STATE_DEFAULT) := by
        intro s n hn hexts hs
        have hnb : n ∈ boardPos := getNeighbors_subset hn
        refine ⟨cstBody_ext b fuel s n hnb, ?_⟩
        unfold cstBody
        by_cases hd : s.state n = STATE_DEFAULT
        · rw [if_pos hd]
          by_cases hz : b.tileMines n = 0
          · simp only [if_pos hz]
            have hder : defaultsCount (clearTile s n) < fuel :=
              Nat.lt_of_lt_of_le (clearTile_defaults_lt s n hnb hd) hs
            have hext' : Ext g0 (clearTile s n) := ext_trans hexts (clearTile_ext s n hnb)
            have hg0n : g0.state n = STATE_DEFAULT := by
              by_cases hch : s.state n = g0.state n
              · rw [← hch]; exact hd
              · exact (ext_changed hexts hch).1
            have hjn : Justified b g0 t n :=
              Or.inr ⟨zreach_of_justified hj hn, hg0n, hz⟩
            obtain ⟨ih1, ih2, ih3⟩ := ih n (clearTile s n) hder hext' hjn
            have hclear := clearTile_state s n hd
            have hcn : (clearTile s n).state n = STATE_CLICKED := by
              rw [hclear.1]; exact Function.update_same n STATE_CLICKED s.state
            refine ⟨?_, ?_, ?_⟩
            · rw [ext_state_preserve (cst_ext b fuel n (clearTile s n)) (by rw [hcn]; decide),
                hcn]
              decide
            · intro q hq
              by_cases hch : (clearTile s n).state q = s.state q
              · have : (cstFuel b fuel n (clearTile s n)).state q ≠ (clearTile s n).state q := by
                  rw [hch]; exact hq
                exact ih2 q this
              · have hqn : q = n := by
                  by_contra hqn
                  rw [hclear.1, Function.update_noteq hqn] at hch
                  exact hch rfl
                subst hqn
                exact zreach_of_justified hj hn
            · intro z hzD hzC hz0 q hqz
              by_cases hzn : z = n
              · subst hzn
                exact ih1 q hqz
              · have hz' : (clearTile s n).state z = STATE_DEFAULT := by
                  rw [hclear.1, Function.update_noteq hzn]; exact hzD
                exact ih3 z hz' hzC hz0 q hqz
          · simp only [if_neg hz]
            have hclear := clearTile_state s n hd
            refine ⟨?_, ?_, ?_⟩
            · rw [hclear.1, Function.update_same]; decide
            · intro q hq
              have hqn : q = n := by
                by_contra hqn
                rw [hclear.1, Function.update_noteq hqn] at hq
                exact hq rfl
              subst hqn
              exact zreach_of_justified hj hn
            · intro z hzD hzC hz0 q hqz
              exfalso
              by_cases hzn : z = n
              · subst hzn; exact hz hz0
              · rw [hclear.1, Function.update_noteq hzn, hzD] at hzC
                exact absurd hzC (by decide)
        · rw [if_neg hd]
          refine ⟨hd, ?_, ?_⟩
          · intro q hq; exact absurd rfl hq
          · intro z hzD hzC _ q hqz
            rw [hzD] at hzC
            exact absurd hzC (by decide)
      have aux : ∀ (l : List Pos), (∀ n ∈ l, n ∈ getNeighbors p) → ∀ (s : GState),
          Ext g0 s → defaultsCount s ≤ fuel →
          Ext s (l.foldl (cstBody b fuel) s) ∧
          (∀ q ∈ l, (l.foldl (cstBody b fuel) s).state q ≠ STATE_DEFAULT) ∧
          (∀ q, (l.foldl (cstBody b fuel) s).state q ≠ s.state q → ZReach b g0 t q) ∧
          (∀ z, s.state z = STATE_DEFAULT →
            (l.foldl (cstBody b fuel) s).state z = STATE_CLICKED → b.tileMines z = 0 →
            ∀ q ∈ getNeighbors z, (l.foldl (cstBody b fuel) s).state q ≠ STATE_DEFAULT) := by
        intro l
        induction l with
        | nil =>
            intro _ s hexts hs
            refine ⟨ext_refl s, by simp, ?_, ?_⟩
            · intro q hq; exact absurd rfl hq
            · intro z hzD hzC _ q hqz
              simp only [List.foldl_nil] at hzC
              rw [hzD] at hzC
              exact absurd hzC (by decide)
        | cons n rest ihl =>
            intro hl s hexts hs
            have hn : n ∈ getNeighbors p := hl n (by simp)
            obtain ⟨ba, bb, bc, bd⟩ := body_facts s n hn hexts hs
            have hext1 : Ext g0 (cstBody b fuel s n) := ext_trans hexts ba
            have hs1 : defaultsCount (cstBody b fuel s n) ≤ fuel :=
              le_trans (ext_defaults_le ba) hs
            obtain ⟨A, B, C, D⟩ := ihl (fun m hm => hl m (by simp [hm])) (cstBody b fuel s n)
              hext1 hs1
            simp only [List.foldl_cons]
            refine ⟨ext_trans ba A, ?_, ?_, ?_⟩
            · intro q hq
              rcases List.mem_cons.1 hq with rfl | hq'
              · exact ext_nondefault A bb
              · exact B q hq'
            · intro q hq
              by_cases hch : (cstBody b fuel s n).state q = s.state q
              · refine C q ?_
                rw [hch]; exact hq
              · exact bc q hch
            · intro z hzD hzC hz0 q hqz
              by_cases h1 : (cstBody b fuel s n).state z = STATE_CLICKED
              · have := bd z hzD h1 hz0 q hqz
                exact ext_nondefault A this
              · have hz1 : (cstBody b fuel s n).state z = STATE_DEFAULT := by
                  by_cases hch : (cstBody b fuel s n).state z = s.state z
                  · rw [hch]; exact hzD
                  · exact absurd (ext_changed ba hch).2.1 h1
                exact D z hz1 hzC hz0 q hqz
      obtain ⟨-, B, C, D⟩ := aux (getNeighbors p) (fun n hn => hn) g hext
        (Nat.lt_succ_iff.1 hfuel)
      exact ⟨B, C, D⟩

theorem cst_complete (b : Board) (g : GState) (t : Pos) :
    ∀ q, ZReach b g t q → (clearSurroundingTiles b t g).state q ≠ STATE_DEFAULT := by
  obtain ⟨B, C, D⟩ := cst_main b g t (defaultsCount g + 1) t g (Nat.lt_succ_self _)
    (ext_refl g) (Or.inl rfl)
  intro q hq
  induction hq with
  | base r hn => exact B r hn
  | step z r hz hzd hz0 hrn ihz =>
      have hch : (clearSurroundingTiles b t g).state z ≠ g.state z := by
        rw [hzd]; exact ihz
      have hzc := (ext_changed (cst_ext b (defaultsCount g + 1) t g) hch).2.1
      exact D z hzd hzc hz0 r hrn

theorem zreach_props (b : Board) (g : GState) (t : Pos) (hwf : WellFormed b)
    (htb : t ∈ boardPos) (ht0 : b.tileMines t = 0) :
    ∀ q, ZReach b g t q → b.isMine q = false ∧ q ∈ boardPos := by
  intro q hq
  induction hq with
  | base r hn =>
      refine ⟨?_, getNeighbors_subset hn⟩
      have hw := hwf t htb
      rw [ht0] at hw
      have hcount := (List.countP_eq_zero).1 hw.symm
      simpa using hcount r hn
  | step z r hz hzd hz0 hrn ihz =>
      refine ⟨?_, getNeighbors_subset hrn⟩
      have hw := hwf z ihz.2
      rw [hz0] at hw
      have hcount := (List.countP_eq_zero).1 hw.symm
      simpa using hcount r hrn

/-- C2: flood-fill correctness.  On an active, uncompleted game, revealing a
hidden non-mine tile `t` with zero adjacent mines reveals exactly `t` together
with its connected zero-adjacency region of hidden tiles and every hidden
bordering tile (the tiles of `ZReach` that were hidden) — flagged tiles keep
their flag, mine tiles keep their state, and the recursion is
fuel-independent beyond the hidden-tile count (it terminates); revealing a
hidden non-mine tile with a positive adjacent-mine count changes that tile
only. -/
theorem C2_flood_fill_correct (b : Board) (g : GState) (t : Pos)
    (hwf : WellFormed b) (htb : t ∈ boardPos)
    (hstart : g.game_started = true) (hcomp : g.is_game_completed = false)
    (ht : g.state t = STATE_DEFAULT) (hm : b.isMine t = false) :
    (b.tileMines t = 0 →
      (∀ p, (onClick b g t).state p = STATE_CLICKED ↔
        (g.state p = STATE_CLICKED ∨ p = t ∨
          (ZReach b g t p ∧ g.state p = STATE_DEFAULT))) ∧
      (∀ p, (onClick b g t).state p = STATE_FLAGGED ↔ g.state p = STATE_FLAGGED) ∧
      (∀ p, b.isMine p = true → (onClick b g t).state p = g.state p) ∧
      (∀ extra, cstFuel b (defaultsCount g + 1 + extra) t g = clearSurroundingTiles b t g)) ∧
    (b.tileMines t ≠ 0 →
      (onClick b g t).state t = STATE_CLICKED ∧
      ∀ p, p ≠ t → (onClick b g t).state p = g.state p) := by
  have hguard : ¬(g.game_started = false ∨ g.is_game_completed = true) := by
    rw [hstart, hcomp]; simp
  have honclick_state : (onClick b g t).state = (revealPhase b g t).state := by
    unfold onClick
    rw [if_neg hguard, if_neg (by rw [hm]; simp)]
    by_cases hcc : (revealPhase b g t).clickedCount = SIZE_X * SIZE_Y - b.mines
    · rw [if_pos hcc]
    · rw [if_neg hcc]
  constructor
  · intro hz
    have hextg1 : Ext g (clearSurroundingTiles b t g) :=
      cst_ext b (defaultsCount g + 1) t g
    obtain ⟨B, C, D⟩ := cst_main b g t (defaultsCount g + 1) t g (Nat.lt_succ_self _)
      (ext_refl g) (Or.inl rfl)
    have hrpt : (revealPhase b g t).state t = STATE_CLICKED ∧
        ∀ q, q ≠ t → (revealPhase b g t).state q = (clearSurroundingTiles b t g).state q := by
      unfold revealPhase
      rw [if_pos hz]
      by_cases hgt : (clearSurroundingTiles b t g).state t = STATE_CLICKED
      · rw [if_neg (by simpa using hgt)]
        exact ⟨hgt, fun q _ => rfl⟩
      · rw [if_pos hgt]
        refine ⟨?_, ?_⟩
        · show Function.update (clearSurroundingTiles b t g).state t STATE_CLICKED t
            = STATE_CLICKED
          simp only [Function.update_same]
        · intro q hq
          show Function.update (clearSurroundingTiles b t g).state t STATE_CLICKED q
            = (clearSurroundingTiles b t g).state q
          simp only [Function.update_noteq hq]
    refine ⟨?_, ?_, ?_, cst_ge b t g⟩
    · intro p
      rw [honclick_state]
      constructor
      · intro hpc
        by_cases hpt : p = t
        · exact Or.inr (Or.inl hpt)
        · rw [hrpt.2 p hpt] at hpc
          by_cases hch : (clearSurroundingTiles b t g).state p = g.state p
          · exact Or.inl (by rw [← hch]; exact hpc)
          · exact Or.inr (Or.inr ⟨C p hch, (ext_changed hextg1 hch).1⟩)
      · intro hcase
        rcases hcase with hgc | rfl | ⟨hzr, hpd⟩
        · by_cases hpt : p = t
          · rw [hpt]; exact hrpt.1
          · rw [hrpt.2 p hpt, ext_state_preserve hextg1 (by rw [hgc]; decide)]
            exact hgc
        · exact hrpt.1
        · by_cases hpt : p = t
          · rw [hpt]; exact hrpt.1
          · rw [hrpt.2 p hpt]
            have hnd := cst_complete b g t p hzr
            have hch : (clearSurroundingTiles b t g).state p ≠ g.state p := by
              rw [hpd]; exact hnd
            exact (ext_changed hextg1 hch).2.1
    · intro p
      rw [honclick_state]
      constructor
      · intro hpf
        by_cases hpt : p = t
        · subst hpt; rw [hrpt.1] at hpf; exact absurd hpf (by decide)
        · rw [hrpt.2 p hpt] at hpf
          by_cases hch : (clearSurroundingTiles b t g).state p = g.state p
          · rw [← hch]; exact hpf
          · rw [(ext_changed hextg1 hch).2.1] at hpf; exact absurd hpf (by decide)
      · intro hpf
        have hpt : p ≠ t := by
          intro h; subst h; rw [ht] at hpf; exact absurd hpf (by decide)
        rw [hrpt.2 p hpt, ext_state_preserve hextg1 (by rw [hpf]; decide)]
        exact hpf
    · intro p hpm
      rw [honclick_state]
      have hpt : p ≠ t := by
        intro h; subst h; rw [hm] at hpm; exact absurd hpm (by decide)
      rw [hrpt.2 p hpt]
      by_cases hch : (clearSurroundingTiles b t g).state p = g.state p
      · exact hch
      · exfalso
        have hfree := (zreach_props b g t hwf htb hz p (C p hch)).1
        rw [hfree] at hpm
        exact absurd hpm (by decide)
  · intro hz
    have hrp : (revealPhase b g t).state = Function.update g.state t STATE_CLICKED := by
      unfold revealPhase
      rw [if_neg hz, if_pos (by rw [ht]; decide)]
  -- the marked record's state field
    rw [honclick_state, hrp]
    exact ⟨Function.update_same t STATE_CLICKED g.state,
      fun p hp => Function.update_noteq hp STATE_CLICKED g.state⟩

/-- Witness for C2: on the mine-free board, clicking the hidden corner tile of
the fresh match state satisfies every hypothesis of the flood-fill theorem. -/
theorem C2_flood_fill_correct_witness :
    WellFormed boardEmpty ∧
    (boardEmpty.tileMines ((0 : Int), (0 : Int)) = 0 →
      ∀ p, (onClick boardEmpty initialState ((0 : Int), (0 : Int))).state p = STATE_CLICKED ↔
        (initialState.state p = STATE_CLICKED ∨ p = ((0 : Int), (0 : Int)) ∨
          (ZReach boardEmpty initialState ((0 : Int), (0 : Int)) p ∧
            initialState.state p = STATE_DEFAULT))) := by
  refine ⟨fun p _ => rfl, fun hz => ?_⟩
  exact ((C2_flood_fill_correct boardEmpty initialState ((0 : Int), (0 : Int))
    (fun p _ => rfl) (by decide) rfl rfl rfl rfl).1 hz).1

theorem revealPhase_sent (b : Board) (g : GState) (t : Pos) :
    (revealPhase b g t).sentCount = g.sentCount := by
  unfold revealPhase
  have h1 : (if b.tileMines t = 0 then clearSurroundingTiles b t g else g).sentCount
      = g.sentCount := by
    by_cases hz : b.tileMines t = 0
    · rw [if_pos hz]
      exact (cst_ext b (defaultsCount g + 1) t g).2.2.2.1
    · rw [if_neg hz]
  by_cases hm : (if b.tileMines t = 0 then clearSurroundingTiles b t g else g).state t
      ≠ STATE_CLICKED
  · rw [if_pos hm]; exact h1
  · rw [if_neg hm]; exact h1

theorem revealPhase_ext (b : Board) (g : GState) (t : Pos) (htb : t ∈ boardPos)
    (htf : g.state t ≠ STATE_FLAGGED) : Ext g (revealPhase b g t) := by
  have hext1 : Ext g (if b.tileMines t = 0 then clearSurroundingTiles b t g else g) := by
    by_cases hz : b.tileMines t = 0
    · rw [if_pos hz]; exact cst_ext b (defaultsCount g + 1) t g
    · rw [if_neg hz]; exact ext_refl g
  set g1 := (if b.tileMines t = 0 then clearSurroundingTiles b t g else g) with hg1def
  by_cases hgt : g1.state t = STATE_CLICKED
  · have heq : revealPhase b g t = g1 := by
      unfold revealPhase
      rw [← hg1def, if_neg (by simpa using hgt)]
    rw [heq]; exact hext1
  · have hg1t : g1.state t = STATE_DEFAULT := by
      by_cases hch : g1.state t = g.state t
      · rw [hch] at hgt ⊢
        cases hs : g.state t
        · rfl
        · exact absurd hs hgt
        · exact absurd hs htf
      · exact absurd (ext_changed hext1 hch).2.1 hgt
    have heq : revealPhase b g t = clearTile g1 t := by
      unfold revealPhase clearTile
      rw [← hg1def, if_pos (show g1.state t ≠ STATE_CLICKED from hgt),
        if_neg (show ¬(g1.state t = STATE_CLICKED ∨ g1.state t = STATE_FLAGGED) by
          rw [hg1t]; decide)]
    rw [heq]
    exact ext_trans hext1 (clearTile_ext g1 t htb)

theorem onClick_fields (b : Board) (g : GState) (t : Pos) :
    onClick b g t = g ∨
    ((onClick b g t).state = (revealPhase b g t).state ∧
     (onClick b g t).clickedCount = (revealPhase b g t).clickedCount ∧
     (onClick b g t).bound = (revealPhase b g t).bound) := by
  unfold onClick
  by_cases h1 : g.game_started = false ∨ g.is_game_completed = true
  · rw [if_pos h1]; exact Or.inl rfl
  · rw [if_neg h1]
    by_cases h2 : b.isMine t = true
    · rw [if_pos h2]; exact Or.inl rfl
    · rw [if_neg h2]
      by_cases h3 : (revealPhase b g t).clickedCount = SIZE_X * SIZE_Y - b.mines
      · rw [if_pos h3]; exact Or.inr ⟨rfl, rfl, rfl⟩
      · rw [if_neg h3]; exact Or.inr ⟨rfl, rfl, rfl⟩

theorem ext_flag_iff {g g' : GState} (h : Ext g g') (q : Pos) :
    g'.state q = STATE_FLAGGED ↔ g.state q = STATE_FLAGGED := by
  constructor
  · intro hq
    by_cases hch : g'.state q = g.state q
    · rw [← hch]; exact hq
    · rw [(ext_changed h hch).2.1] at hq; exact absurd hq (by decide)
  · intro hq
    rw [ext_state_preserve h (by rw [hq]; decide)]; exact hq

theorem onClick_inv (b : Board) (g : GState) (t : Pos) (htb : t ∈ boardPos)
    (htf : g.state t ≠ STATE_FLAGGED) (hci : CountInv g) (hbi : BoundInv g) :
    CountInv (onClick b g t) ∧ BoundInv (onClick b g t) := by
  have hext := revealPhase_ext b g t htb htf
  rcases onClick_fields b g t with he | ⟨hst, hcc, hbd⟩
  · rw [he]; exact ⟨hci, hbi⟩
  · constructor
    · show (onClick b g t).clickedCount = cardClicked (onClick b g t)
      have hcards : cardClicked (onClick b g t) = cardClicked (revealPhase b g t) := by
        unfold cardClicked; rw [hst]
      rw [hcc, hcards]
      exact hext.2.2.2.2.2.2.2 hci
    · intro q
      have hb : (onClick b g t).bound = g.bound := by rw [hbd, hext.1]
      rw [hb]
      constructor
      · intro h
        obtain ⟨hin, hfl⟩ := (hbi q).1 h
        refine ⟨hin, ?_⟩
        rw [hst]
        intro hq
        exact hfl ((ext_flag_iff hext q).1 hq)
      · rintro ⟨hin, hfl⟩
        apply (hbi q).2
        refine ⟨hin, ?_⟩
        intro hq
        refine hfl ?_
        rw [hst]
        exact (ext_flag_iff hext q).2 hq

theorem cardClicked_update_eq (g : GState) (q : Pos) (v : TState)
    (h1 : g.state q ≠ STATE_CLICKED) (h2 : v ≠ STATE_CLICKED) :
    (boardPos.filter (fun p => Function.update g.state q v p = STATE_CLICKED)).card
      = cardClicked g := by
  unfold cardClicked
  congr 1
  ext r
  by_cases hr : r = q
  · subst hr
    simp [Finset.mem_filter, Function.update_same, h1, h2]
  · simp [Finset.mem_filter, Function.update_noteq hr]

theorem onRightClick_inv (b : Board) (g : GState) (t : Pos) (htb : inBounds t = true)
    (hci : CountInv g) (hbi : BoundInv g) :
    CountInv (onRightClick b g t) ∧ BoundInv (onRightClick b g t) := by
  unfold onRightClick
  by_cases h1 : g.game_started = false ∨ g.is_game_completed = true
  · rw [if_pos h1]; exact ⟨hci, hbi⟩
  · rw [if_neg h1]
    cases hs : g.state t
    · refine ⟨?_, ?_⟩
      · show g.clickedCount =
          (boardPos.filter (fun p => Function.update g.state t STATE_FLAGGED p
            = STATE_CLICKED)).card
        rw [cardClicked_update_eq g t STATE_FLAGGED (by rw [hs]; decide) (by decide)]
        exact hci
      · intro q
        show Function.update g.bound t false q = true ↔
          inBounds q = true ∧ Function.update g.state t STATE_FLAGGED q ≠ STATE_FLAGGED
        by_cases hq : q = t
        · subst hq
          simp [Function.update_same]
        · simp only [Function.update_noteq hq]
          exact hbi q
    · exact ⟨hci, hbi⟩
    · refine ⟨?_, ?_⟩
      · show g.clickedCount =
          (boardPos.filter (fun p => Function.update g.state t STATE_DEFAULT p
            = STATE_CLICKED)).card
        rw [cardClicked_update_eq g t STATE_DEFAULT (by rw [hs]; decide) (by decide)]
        exact hci
      · intro q
        show Function.update g.bound t true q = true ↔
          inBounds q = true ∧ Function.update g.state t STATE_DEFAULT q ≠ STATE_FLAGGED
        by_cases hq : q = t
        · subst hq
          simp [Function.update_same, htb]
        · simp only [Function.update_noteq hq]
          exact hbi q

theorem applyOp_inv (b : Board) (g : GState) (op : Op)
    (h : CountInv g ∧ BoundInv g) :
    CountInv (applyOp b g op) ∧ BoundInv (applyOp b g op) := by
  obtain ⟨hci, hbi⟩ := h
  cases op with
  | click p =>
      show CountInv (if g.bound p = true then onClick b g p else g) ∧
        BoundInv (if g.bound p = true then onClick b g p else g)
      by_cases hb : g.bound p = true
      · rw [if_pos hb]
        obtain ⟨hin, hfl⟩ := (hbi p).1 hb
        exact onClick_inv b g p ((mem_boardPos_iff p).2 hin) hfl hci hbi
      · rw [if_neg hb]; exact ⟨hci, hbi⟩
  | flag p =>
      show CountInv (if inBounds p = true then onRightClick b g p else g) ∧
        BoundInv (if inBounds p = true then onRightClick b g p else g)
      by_cases hp : inBounds p = true
      · rw [if_pos hp]
        exact onRightClick_inv b g p hp hci hbi
      · rw [if_neg hp]; exact ⟨hci, hbi⟩

theorem reachable_inv (b : Board) (g : GState) (h : Reachable b g) :
    CountInv g ∧ BoundInv g := by
  obtain ⟨ops, rfl⟩ := h
  have hstep : ∀ (l : List Op) (s : GState), CountInv s ∧ BoundInv s →
      CountInv (l.foldl (applyOp b) s) ∧ BoundInv (l.foldl (applyOp b) s) := by
    intro l
    induction l with
    | nil => intro s hs; exact hs
    | cons op rest ihop =>
        intro s hs
        exact ihop (applyOp b s op) (applyOp_inv b s op hs)
  refine hstep ops initialState
    ⟨show initialState.clickedCount = cardClicked initialState by decide, ?_⟩
  intro p
  show inBounds p = true ↔ inBounds p = true ∧ STATE_DEFAULT ≠ STATE_FLAGGED
  exact ⟨fun hp => ⟨hp, by decide⟩, fun hp => hp.1⟩

theorem onClick_clicked_persist (b : Board) (g : GState) (t q : Pos) (htb : t ∈ boardPos)
    (htf : g.state t ≠ STATE_FLAGGED) (hq : g.state q = STATE_CLICKED) :
    (onClick b g t).state q = STATE_CLICKED := by
  rcases onClick_fields b g t with he | ⟨hst, -, -⟩
  · rw [he]; exact hq
  · rw [hst, ext_state_preserve (revealPhase_ext b g t htb htf) (by rw [hq]; decide)]
    exact hq

theorem onClick_flagged_persist (b : Board) (g : GState) (t q : Pos) (htb : t ∈ boardPos)
    (htf : g.state t ≠ STATE_FLAGGED) (hq : g.state q = STATE_FLAGGED) :
    (onClick b g t).state q = STATE_FLAGGED := by
  rcases onClick_fields b g t with he | ⟨hst, -, -⟩
  · rw [he]; exact hq
  · rw [hst, ext_state_preserve (revealPhase_ext b g t htb htf) (by rw [hq]; decide)]
    exact hq

theorem onRightClick_clicked_persist (b : Board) (g : GState) (t q : Pos)
    (hq : g.state q = STATE_CLICKED) :
    (onRightClick b g t).state q = STATE_CLICKED := by
  unfold onRightClick
  by_cases h1 : g.game_started = false ∨ g.is_game_completed = true
  · rw [if_pos h1]; exact hq
  · rw [if_neg h1]
    cases hs : g.state t
    · show Function.update g.state t STATE_FLAGGED q = STATE_CLICKED
      have hqt : q ≠ t := by
        intro h; subst h; rw [hq] at hs; exact absurd hs (by decide)
      rw [Function.update_noteq hqt]; exact hq
    · exact hq
    · show Function.update g.state t STATE_DEFAULT q = STATE_CLICKED
      have hqt : q ≠ t := by
        intro h; subst h; rw [hq] at hs; exact absurd hs (by decide)
      rw [Function.update_noteq hqt]; exact hq

theorem applyOp_mine_noop (b : Board) (g : GState) (p : Pos) (hm : b.isMine p = true) :
    applyOp b g (.click p) = g := by
  show (if g.bound p = true then onClick b g p else g) = g
  by_cases hb : g.bound p = true
  · rw [if_pos hb]
    unfold onClick
    by_cases h1 : g.game_started = false ∨ g.is_game_completed = true
    · rw [if_pos h1]
    · rw [if_neg h1, if_pos hm]
  · rw [if_neg hb]

/-- C8: in every state reachable by click and flag gestures from the start of a
match, `clickedCount` equals the number of `STATE_CLICKED` tiles (each tile is
counted exactly once, when it transitions); a clicked tile stays clicked under
every further gesture; a flagged tile is never revealed by a click (its
`BTN_CLICK` binding is removed while flagged, and the flood fill skips
non-hidden tiles); and clicking a mine tile changes nothing at all. -/
theorem C8_reveal_count_invariant (b : Board) (g : GState) (h : Reachable b g) :
    g.clickedCount = cardClicked g ∧
    (∀ op q, g.state q = STATE_CLICKED → (applyOp b g op).state q = STATE_CLICKED) ∧
    (∀ p q, g.state q = STATE_FLAGGED → (applyOp b g (.click p)).state q = STATE_FLAGGED) ∧
    (∀ p, b.isMine p = true → applyOp b g (.click p) = g) := by
  obtain ⟨hci, hbi⟩ := reachable_inv b g h
  refine ⟨hci, ?_, ?_, fun p hm => applyOp_mine_noop b g p hm⟩
  · intro op q hq
    cases op with
    | click p =>
        show (if g.bound p = true then onClick b g p else g).state q = STATE_CLICKED
        by_cases hb : g.bound p = true
        · rw [if_pos hb]
          obtain ⟨hin, hfl⟩ := (hbi p).1 hb
          exact onClick_clicked_persist b g p q ((mem_boardPos_iff p).2 hin) hfl hq
        · rw [if_neg hb]; exact hq
    | flag p =>
        show (if inBounds p = true then onRightClick b g p else g).state q = STATE_CLICKED
        by_cases hp : inBounds p = true
        · rw [if_pos hp]
          exact onRightClick_clicked_persist b g p q hq
        · rw [if_neg hp]; exact hq
  · intro p q hq
    show (if g.bound p = true then onClick b g p else g).state q = STATE_FLAGGED
    by_cases hb : g.bound p = true
    · rw [if_pos hb]
      obtain ⟨hin, hfl⟩ := (hbi p).1 hb
      exact onClick_flagged_persist b g p q ((mem_boardPos_iff p).2 hin) hfl hq
    · rw [if_neg hb]; exact hq

/-- Witness for C8: the fresh match state on the 99-mine board is reachable
(empty gesture list), so the count invariant holds there. -/
theorem C8_reveal_count_invariant_witness :
    initialState.clickedCount = cardClicked initialState ∧
    (∀ p, board99.isMine p = true → applyOp board99 initialState (.click p) = initialState) := by
  have h := C8_reveal_count_invariant board99 initialState ⟨[], rfl⟩
  exact ⟨h.1, h.2.2.2⟩

/-- C3 (amended): a click emits `player_finished` exactly when `BTN_CLICK` is
bound on the tile, the game is started and not completed, the tile is not a
mine, and — after the reveal step — `clickedCount` equals
`SIZE_X*SIZE_Y - self.mines`.  The completing reveal therefore emits, but the
condition does not latch: any later click on an already revealed non-mine tile
emits again.  Flag gestures never emit. -/
theorem C3_player_finished_emission (b : Board) (g : GState) (p : Pos) :
    ((applyOp b g (.click p)).sentCount =
      g.sentCount +
        (if g.bound p = true ∧ g.game_started = true ∧ g.is_game_completed = false ∧
            b.isMine p = false ∧
            (revealPhase b g p).clickedCount = SIZE_X * SIZE_Y - b.mines
         then 1 else 0)) ∧
    (∀ q, (applyOp b g (.flag q)).sentCount = g.sentCount) := by
  constructor
  · show (if g.bound p = true then onClick b g p else g).sentCount = _
    by_cases hb : g.bound p = true
    · rw [if_pos hb]
      unfold onClick
      by_cases h1 : g.game_started = false ∨ g.is_game_completed = true
      · rw [if_pos h1, if_neg, Nat.add_zero]
        rintro ⟨-, hgs, hgc, -⟩
        rcases h1 with h1 | h1
        · rw [hgs] at h1; exact absurd h1 (by decide)
        · rw [hgc] at h1; exact absurd h1 (by decide)
      · rw [if_neg h1]
        push_neg at h1
        have hgs : g.game_started = true := by
          cases hv : g.game_started
          · exact absurd hv h1.1
          · rfl
        have hgc : g.is_game_completed = false := by
          cases hv : g.is_game_completed
          · rfl
          · exact absurd hv h1.2
        by_cases h2 : b.isMine p = true
        · rw [if_pos h2, if_neg, Nat.add_zero]
          rintro ⟨-, -, -, hm, -⟩
          rw [h2] at hm; exact absurd hm (by decide)
        · rw [if_neg h2]
          have hm : b.isMine p = false := by
            cases hv : b.isMine p
            · rfl
            · exact absurd hv h2
          by_cases h3 : (revealPhase b g p).clickedCount = SIZE_X * SIZE_Y - b.mines
          · rw [if_pos h3, if_pos ⟨hb, hgs, hgc, hm, h3⟩]
            show (revealPhase b g p).sentCount + 1 = g.sentCount + 1
            rw [revealPhase_sent]
          · rw [if_neg h3, if_neg, Nat.add_zero]
            · exact revealPhase_sent b g p
            · rintro ⟨-, -, -, -, hcc⟩
              exact h3 hcc
    · rw [if_neg hb, if_neg, Nat.add_zero]
      rintro ⟨hb2, -⟩
      exact hb hb2
  · intro q
    show (if inBounds q = true then onRightClick b g q else g).sentCount = g.sentCount
    by_cases hq : inBounds q = true
    · rw [if_pos hq]
      unfold onRightClick
      by_cases h1 : g.game_started = false ∨ g.is_game_completed = true
      · rw [if_pos h1]
      · rw [if_neg h1]
        cases hs : g.state q <;> rfl
    · rw [if_neg hq]

/-- C3 counterexample: on the 99-mine board the first click on the corner tile
completes the board and emits `player_finished`; a second click on the very
same, already revealed tile changes no tile state and no count, yet emits
`player_finished` again — so the claim "exactly one such event per match,
later reveals are inert and produce no further event" is false on the code. -/
theorem C3_second_report_counterexample :
    (applyOp board99 initialState (Op.click ((0 : Int), (0 : Int)))).sentCount = 1 ∧
    (applyOp board99 (applyOp board99 initialState (Op.click ((0 : Int), (0 : Int))))
      (Op.click ((0 : Int), (0 : Int)))).sentCount = 2 ∧
    (applyOp board99 (applyOp board99 initialState (Op.click ((0 : Int), (0 : Int))))
      (Op.click ((0 : Int), (0 : Int)))).clickedCount =
      (applyOp board99 initialState (Op.click ((0 : Int), (0 : Int)))).clickedCount ∧
    (∀ p ∈ boardPos,
      (applyOp board99 (applyOp board99 initialState (Op.click ((0 : Int), (0 : Int))))
        (Op.click ((0 : Int), (0 : Int)))).state p =
      (applyOp board99 initialState (Op.click ((0 : Int), (0 : Int)))).state p) := by
  decide

theorem setupRow_draws (u : Nat → ℚ) (x : Nat) :
    ∀ (n : Nat) (acc : GenAcc),
      ((List.range n).foldl (fun a y => setupCell u x y a) acc).draws = acc.draws + n := by
  intro n
  induction n with
  | zero => intro acc; rfl
  | succ n ihn =>
      intro acc
      simp only [List.range_succ, List.foldl_append, List.foldl_cons, List.foldl_nil]
      show ((List.range n).foldl (fun a y => setupCell u x y a) acc).draws + 1 = acc.draws + (n + 1)
      rw [ihn acc]
      omega

theorem setupRow_isMine (u : Nat → ℚ) (x : Nat) :
    ∀ (n : Nat) (acc : GenAcc) (p : Pos),
      ((List.range n).foldl (fun a y => setupCell u x y a) acc).isMine p =
        if p.1 = (x : Int) ∧ 0 ≤ p.2 ∧ p.2 < (n : Int)
        then mineAt u (acc.draws + p.2.toNat) else acc.isMine p := by
  intro n
  induction n with
  | zero =>
      intro acc p
      rw [if_neg]
      · rfl
      · rintro ⟨-, h1, h2⟩; omega
  | succ n ihn =>
      intro acc p
      simp only [List.range_succ, List.foldl_append, List.foldl_cons, List.foldl_nil]
      show Function.update ((List.range n).foldl (fun a y => setupCell u x y a) acc).isMine
          ((x : Int), (n : Int))
          (mineAt u ((List.range n).foldl (fun a y => setupCell u x y a) acc).draws) p = _
      by_cases hp : p = ((x : Int), (n : Int))
      · subst hp
        rw [Function.update_same, setupRow_draws u x n acc,
          if_pos (show ((x : Int), (n : Int)).1 = (x : Int) ∧ 0 ≤ ((x : Int), (n : Int)).2 ∧
              ((x : Int), (n : Int)).2 < ((n + 1 : Nat) : Int) from
            ⟨rfl, by show (0 : Int) ≤ ((n : Nat) : Int); exact_mod_cast Nat.zero_le n,
             by show ((n : Nat) : Int) < ((n + 1 : Nat) : Int);
                exact_mod_cast Nat.lt_succ_self n⟩)]
        rfl
      · rw [Function.update_noteq hp, ihn acc p]
        split_ifs with h1 h2 h2
        · rfl
        · exfalso
          rcases h1 with ⟨ha, hb, hc⟩
          exact h2 ⟨ha, hb, by omega⟩
        · exfalso
          rcases h2 with ⟨ha, hb, hc⟩
          refine h1 ⟨ha, hb, ?_⟩
          by_contra hlt
          push_neg at hlt
          have hpyn : p.2 = (n : Int) := by omega
          exact hp (Prod.ext_iff.2 ⟨ha, hpyn⟩)
        · rfl

theorem setupRow_def (u : Nat → ℚ) (acc : GenAcc) (x : Nat) :
    setupRow u acc x = (List.range SIZE_Y).foldl (fun a y => setupCell u x y a) acc := rfl

theorem setupGrid_draws (u : Nat → ℚ) :
    ∀ (n : Nat),
      ((List.range n).foldl (setupRow u) ⟨fun _ => false, 0, 0⟩).draws = n * SIZE_Y := by
  intro n
  induction n with
  | zero => rfl
  | succ n ihn =>
      simp only [List.range_succ, List.foldl_append, List.foldl_cons, List.foldl_nil]
      rw [setupRow_def, setupRow_draws u n SIZE_Y, ihn]
      ring

theorem setupGrid_isMine (u : Nat → ℚ) :
    ∀ (n : Nat) (p : Pos),
      ((List.range n).foldl (setupRow u) ⟨fun _ => false, 0, 0⟩).isMine p =
        if 0 ≤ p.1 ∧ p.1 < (n : Int) ∧ 0 ≤ p.2 ∧ p.2 < (SIZE_Y : Int)
        then mineAt u (p.1.toNat * SIZE_Y + p.2.toNat) else false := by
  intro n
  induction n with
  | zero =>
      intro p
      rw [if_neg]
      · rfl
      · rintro ⟨h1, h2, -⟩; omega
  | succ n ihn =>
      intro p
      simp only [List.range_succ, List.foldl_append, List.foldl_cons, List.foldl_nil]
      rw [setupRow_def, setupRow_isMine u n SIZE_Y _ p, setupGrid_draws u n, ihn p]
      by_cases hA : p.1 = (n : Int) ∧ 0 ≤ p.2 ∧ p.2 < (SIZE_Y : Int)
      · rw [if_pos hA,
          if_pos (show 0 ≤ p.1 ∧ p.1 < ((n + 1 : Nat) : Int) ∧ 0 ≤ p.2 ∧
              p.2 < (SIZE_Y : Int) from ⟨by omega, by omega, hA.2.1, hA.2.2⟩),
          hA.1, Int.toNat_natCast]
      · rw [if_neg hA]
        by_cases hB : 0 ≤ p.1 ∧ p.1 < (n : Int) ∧ 0 ≤ p.2 ∧ p.2 < (SIZE_Y : Int)
        · rw [if_pos hB,
            if_pos (show 0 ≤ p.1 ∧ p.1 < ((n + 1 : Nat) : Int) ∧ 0 ≤ p.2 ∧
                p.2 < (SIZE_Y : Int) from ⟨hB.1, by omega, hB.2.2.1, hB.2.2.2⟩)]
        · rw [if_neg hB, if_neg]
          rintro ⟨c1, c2, c3, c4⟩
          have hle : p.1 ≤ (n : Int) := by omega
          rcases lt_or_eq_of_le hle with h | h
          · exact hB ⟨c1, h, c3, c4⟩
          · exact hA ⟨h, c3, c4⟩

theorem setupBoard_isMine (u : Nat → ℚ) (x y : Nat) (hx : x < SIZE_X) (hy : y < SIZE_Y) :
    (setupBoard u).isMine ((x : Int), (y : Int)) = mineAt u (x * SIZE_Y + y) := by
  show (setupGrid u).isMine _ = _
  unfold setupGrid
  rw [setupGrid_isMine u SIZE_X ((x : Int), (y : Int)),
    if_pos (show (0 : Int) ≤ ((x : Int), (y : Int)).1 ∧
        ((x : Int), (y : Int)).1 < (SIZE_X : Int) ∧
        (0 : Int) ≤ ((x : Int), (y : Int)).2 ∧ ((x : Int), (y : Int)).2 < (SIZE_Y : Int) from
      ⟨by show (0 : Int) ≤ ((x : Nat) : Int); exact_mod_cast Nat.zero_le x,
       by show ((x : Nat) : Int) < ((SIZE_X : Nat) : Int); exact_mod_cast hx,
       by show (0 : Int) ≤ ((y : Nat) : Int); exact_mod_cast Nat.zero_le y,
       by show ((y : Nat) : Int) < ((SIZE_Y : Nat) : Int); exact_mod_cast hy⟩)]
  rfl

/-- C1: board generation is deterministic and matches the reference traversal.
With the PRNG abstracted as `prng : seed → draw index → uniform sample`,
`setup` seeded with `seed` makes cell `(x, y)` a mine exactly when the sample
with row-major index `x * SIZE_Y + y` is below 0.1; the two nested loops draw
exactly one sample per cell (`SIZE_X * SIZE_Y` draws in total); each tile's
stored adjacent-mine count is the number of mines among its in-bounds
neighbors (out-of-bounds coordinates are simply absent); and two boards
generated from the same seed agree on every mine flag and adjacency count. -/
theorem C1_board_generation (prng : Int → Nat → ℚ) (seed : Int) (x y : Nat)
    (hx : x < SIZE_X) (hy : y < SIZE_Y) :
    ((generate prng seed).isMine ((x : Int), (y : Int))
        = decide (prng seed (x * SIZE_Y + y) < 1 / 10)) ∧
    (setupGrid (prng seed)).draws = SIZE_X * SIZE_Y ∧
    ((generate prng seed).tileMines ((x : Int), (y : Int))
        = (getNeighbors ((x : Int), (y : Int))).countP
            (fun q => (generate prng seed).isMine q)) ∧
    (∀ b1 b2, b1 = generate prng seed → b2 = generate prng seed →
      (∀ p, b1.isMine p = b2.isMine p) ∧ (∀ p, b1.tileMines p = b2.tileMines p)) := by
  refine ⟨setupBoard_isMine (prng seed) x y hx hy, setupGrid_draws (prng seed) SIZE_X,
    rfl, ?_⟩
  rintro b1 b2 rfl rfl
  exact ⟨fun p => rfl, fun p => rfl⟩

/-- Witness for C1 at the corner cell with a constant stream. -/
theorem C1_board_generation_witness :
    0 < SIZE_X ∧ 0 < SIZE_Y ∧
    ((generate (fun _ _ => (1 : ℚ)) 5).isMine ((0 : Int), (0 : Int))
      = decide ((fun _ _ => (1 : ℚ)) 5 (0 * SIZE_Y + 0) < 1 / 10)) :=
  ⟨by decide, by decide,
    (C1_board_generation (fun _ _ => (1 : ℚ)) 5 0 0 (by decide) (by decide)).1⟩

/-! ## Server lemmas -/

theorem handle_connect_full (fresh : Int) (sid : String) (st : ServerState)
    (h : 2 ≤ st.players.length) :
    handle_connect fresh sid st = ((handle_disconnect sid st).1,
      SEvent.connection_error sid "Game is full" :: (handle_disconnect sid st).2) := by
  unfold handle_connect
  rw [if_pos h]

theorem handle_disconnect_keep (sid : String) (st : ServerState)
    (h : ¬(st.players.filter (fun kv => kv.1 ≠ sid)).length < 2) :
    handle_disconnect sid st =
      ({ st with players := st.players.filter (fun kv => kv.1 ≠ sid) }, []) := by
  unfold handle_disconnect
  rw [if_neg h]

theorem handle_disconnect_reset (sid : String) (st : ServerState)
    (h : (st.players.filter (fun kv => kv.1 ≠ sid)).length < 2) :
    handle_disconnect sid st =
      (⟨st.players.filter (fun kv => kv.1 ≠ sid), none, false, false⟩,
       (st.players.filter (fun kv => kv.1 ≠ sid)).map
         (fun kv => SEvent.game_over kv.1 none [])) := by
  unfold handle_disconnect
  rw [if_pos h]

/-- C5: a third connection into a full session receives exactly
`connection_error "Game is full"` and the whole session state — both slots,
the seed, and the phase flags — is unchanged, including across the disconnect
callback that `sio.disconnect` fires for the rejected sid. -/
theorem C5_session_full_rejection (fresh : Int) (sid : String) (st : ServerState)
    (h2 : st.players.length = 2) (hnot : ∀ kv ∈ st.players, kv.1 ≠ sid) :
    handle_connect fresh sid st = (st, [SEvent.connection_error sid "Game is full"]) := by
  have hfilter : st.players.filter (fun kv => kv.1 ≠ sid) = st.players :=
    List.filter_eq_self.2 (fun kv hkv => by simpa using hnot kv hkv)
  have hd : handle_disconnect sid st = (st, []) := by
    rw [handle_disconnect_keep sid st (by rw [hfilter]; omega)]
    rw [hfilter]
  rw [handle_connect_full fresh sid st (by omega), hd]

/-- Witness for C5 on a concrete full session. -/
theorem C5_session_full_rejection_witness :
    handle_connect 9 "c3"
      ⟨[("c1", ⟨"Player A", none⟩), ("c2", ⟨"Player B", none⟩)], some 42, true, false⟩ =
      (⟨[("c1", ⟨"Player A", none⟩), ("c2", ⟨"Player B", none⟩)], some 42, true, false⟩,
       [SEvent.connection_error "c3" "Game is full"]) := by
  refine C5_session_full_rejection 9 "c3" _ rfl ?_
  intro kv hkv
  simp only [List.mem_cons, List.not_mem_nil, or_false] at hkv
  rcases hkv with rfl | rfl
  · decide
  · decide

theorem handle_connect_accept (fresh : Int) (sid : String) (st : ServerState)
    (h : st.players.length < 2) :
    (handle_connect fresh sid st).1.board_seed =
      (if seedTruthy st.board_seed then st.board_seed else some fresh) ∧
    (handle_connect fresh sid st).1.players =
      dictSet st.players sid
        ⟨if st.players.length = 0 then "Player A" else "Player B", none⟩ ∧
    (handle_connect fresh sid st).2.head? =
      some (SEvent.player_connected sid
        (if st.players.length = 0 then "Player A" else "Player B")
        (if seedTruthy st.board_seed then st.board_seed else some fresh)
        (dictSet st.players sid
          ⟨if st.players.length = 0 then "Player A" else "Player B", none⟩).length) := by
  unfold handle_connect
  rw [if_neg (Nat.not_le.2 h)]
  dsimp only
  by_cases hlen : (dictSet st.players sid
      ⟨if st.players.length = 0 then "Player A" else "Player B", none⟩).length = 2
  · rw [if_pos hlen]
    exact ⟨rfl, rfl, rfl⟩
  · rw [if_neg hlen]
    exact ⟨rfl, rfl, rfl⟩

/-- C6: when a disconnect leaves fewer than two occupants, the seed is
cleared, the started/finished flags are reset, every remaining connection is
sent `game_over{winner: none, times: {}}`, and the next accepted connection is
issued the freshly drawn seed (the cleared seed is never reissued). -/
theorem C6_disconnect_reset (sid : String) (st : ServerState)
    (h : (st.players.filter (fun kv => kv.1 ≠ sid)).length < 2) :
    (handle_disconnect sid st).1.board_seed = none ∧
    (handle_disconnect sid st).1.game_started = false ∧
    (handle_disconnect sid st).1.game_finished = false ∧
    (handle_disconnect sid st).1.players = st.players.filter (fun kv => kv.1 ≠ sid) ∧
    (handle_disconnect sid st).2 =
      (st.players.filter (fun kv => kv.1 ≠ sid)).map
        (fun kv => SEvent.game_over kv.1 none []) ∧
    (∀ fresh sid2,
      (handle_connect fresh sid2 (handle_disconnect sid st).1).1.board_seed = some fresh ∧
      (∃ pid tp, (handle_connect fresh sid2 (handle_disconnect sid st).1).2.head? =
        some (SEvent.player_connected sid2 pid (some fresh) tp))) := by
  rw [handle_disconnect_reset sid st h]
  refine ⟨rfl, rfl, rfl, rfl, rfl, ?_⟩
  intro fresh sid2
  obtain ⟨hseed, -, hhead⟩ := handle_connect_accept fresh sid2
    ⟨st.players.filter (fun kv => kv.1 ≠ sid), none, false, false⟩ h
  refine ⟨?_, ?_⟩
  · rw [hseed]; rfl
  · exact ⟨_, _, hhead⟩

/-- Witness for C6: one of two players disconnects mid-match. -/
theorem C6_disconnect_reset_witness :
    (handle_disconnect "c1"
      ⟨[("c1", ⟨"Player A", none⟩), ("c2", ⟨"Player B", none⟩)], some 42, true, false⟩).1.board_seed
      = none ∧
    (handle_disconnect "c1"
      ⟨[("c1", ⟨"Player A", none⟩), ("c2", ⟨"Player B", none⟩)], some 42, true, false⟩).2 =
      [SEvent.game_over "c2" none []] := by
  have h := C6_disconnect_reset "c1"
    ⟨[("c1", ⟨"Player A", none⟩), ("c2", ⟨"Player B", none⟩)], some 42, true, false⟩
    (by decide)
  refine ⟨h.1, ?_⟩
  rw [h.2.2.2.2.1]
  decide

/-- C9: the code contradicts the crash-freedom requirement — a
`player_finished` from a connection that holds no slot (for example the
rejected third connection of a full session, before its disconnect completes)
makes `handle_player_finished` evaluate `game_state['players'][sid]` on a
missing key and raise `KeyError`.  The state below is exactly the one reached
after two accepted connections. -/
theorem C9_unslotted_finish_raises :
    handle_player_finished "c3" (some "0:00:05")
      (handle_connect 43 "c2" (handle_connect 42 "c1" initialServer).1).1 = .error () := rfl

/-- C10 counterexample: connect A, connect B, disconnect A, connect C — the
session then holds two occupied slots both labeled "Player B", refuting the
distinct-labels claim. -/
theorem C10_duplicate_label_counterexample :
    ((handle_connect 44 "c3" (handle_disconnect "c1"
        (handle_connect 43 "c2" (handle_connect 42 "c1" initialServer).1).1).1).1.players.map
      (fun kv => kv.2.id)) = ["Player B", "Player B"] := rfl

theorem lookupK_dictSet (l : List (String × α)) (k : String) (v : α) :
    lookupK (dictSet l k v) k = some v := by
  induction l with
  | nil => simp [dictSet, lookupK]
  | cons kv rest ih =>
      by_cases h : kv.1 = k
      · simp [dictSet, h, lookupK]
      · simp [dictSet, h, lookupK, ih]

/-- C10 (amended): the slot label depends only on the occupancy at admission
time — a connection accepted into an empty session is labeled "Player A" and
one accepted alongside exactly one occupant is labeled "Player B".  (Hence the
first two connections of an initially empty session get distinct labels, but
after a mid-session departure a rejoin duplicates "Player B".) -/
theorem C10_label_assignment (fresh : Int) (sid : String) (st : ServerState) :
    (st.players.length = 0 →
      lookupK (handle_connect fresh sid st).1.players sid = some ⟨"Player A", none⟩) ∧
    (st.players.length = 1 →
      lookupK (handle_connect fresh sid st).1.players sid = some ⟨"Player B", none⟩) := by
  constructor
  · intro h0
    rw [(handle_connect_accept fresh sid st (by omega)).2.1, if_pos h0]
    exact lookupK_dictSet st.players sid ⟨"Player A", none⟩
  · intro h1
    rw [(handle_connect_accept fresh sid st (by omega)).2.1, if_neg (by omega)]
    exact lookupK_dictSet st.players sid ⟨"Player B", none⟩

/-- Witness for the amended C10 at concrete occupancies 0 and 1. -/
theorem C10_label_assignment_witness :
    lookupK (handle_connect 7 "s1" initialServer).1.players "s1"
      = some ⟨"Player A", none⟩ ∧
    lookupK (handle_connect 7 "s2"
      ⟨[("s1", ⟨"Player A", none⟩)], some 7, false, false⟩).1.players "s2"
      = some ⟨"Player B", none⟩ :=
  ⟨(C10_label_assignment 7 "s1" initialServer).1 rfl,
   (C10_label_assignment 7 "s2" ⟨[("s1", ⟨"Player A", none⟩)], some 7, false, false⟩).2 rfl⟩

theorem lookupK_setTime_self (l : List (String × Player)) (k : String) (t : Option String) :
    lookupK (setTime l k t) k = (lookupK l k).map (fun p => { p with finished_time := t }) := by
  induction l with
  | nil => rfl
  | cons kv rest ih =>
      by_cases h : kv.1 = k
      · simp [setTime, lookupK, h]
      · simp only [setTime, List.map_cons, if_neg h, lookupK] at ih ⊢
        exact ih

theorem lookupK_setTime_other (l : List (String × Player)) (k k2 : String)
    (t : Option String) (h : k2 ≠ k) :
    lookupK (setTime l k t) k2 = lookupK l k2 := by
  induction l with
  | nil => rfl
  | cons kv rest ih =>
      by_cases hk : kv.1 = k
      · have hk2 : kv.1 ≠ k2 := by rw [hk]; exact fun hh => h hh.symm
        simp only [setTime, List.map_cons, if_pos hk, lookupK] at ih ⊢
        rw [if_neg hk2, if_neg hk2, ih]
      · simp only [setTime, List.map_cons, if_neg hk, lookupK] at ih ⊢
        by_cases hq : kv.1 = k2
        · rw [if_pos hq, if_pos hq]
        · rw [if_neg hq, if_neg hq, ih]

theorem setTime_id (k : String) (t : Option String) :
    ∀ (l : List (String × Player)), (∀ kv ∈ l, kv.1 ≠ k) → setTime l k t = l := by
  intro l
  induction l with
  | nil => intro _; rfl
  | cons kv rest ih =>
      intro h
      show (if kv.1 = k then (kv.1, { kv.2 with finished_time := t }) else kv)
        :: setTime rest k t = kv :: rest
      rw [if_neg (h kv (by simp)), ih (fun kv2 h2 => h kv2 (by simp [h2]))]

theorem filter_truthy_nil :
    ∀ (l : List (String × Player)),
      (∀ kv ∈ l, truthyTime kv.2.finished_time = false) →
      l.filter (fun kv => truthyTime kv.2.finished_time) = [] := by
  intro l
  induction l with
  | nil => intro _; rfl
  | cons kv rest ih =>
      intro h
      rw [List.filter_cons, if_neg (by rw [h kv (by simp)]; decide)]
      exact ih (fun kv2 h2 => h kv2 (by simp [h2]))

theorem finished_le_one (sid : String) (t : Option String) :
    ∀ (l : List (String × Player)), (l.map Prod.fst).Nodup →
      (∀ kv ∈ l, kv.1 ≠ sid → truthyTime kv.2.finished_time = false) →
      ((setTime l sid t).filter (fun kv => truthyTime kv.2.finished_time)).length ≤ 1 := by
  intro l
  induction l with
  | nil => intro _ _; exact Nat.zero_le 1
  | cons kv rest ih =>
      intro hnodup hothers
      rw [List.map_cons, List.nodup_cons] at hnodup
      have hcons : setTime (kv :: rest) sid t
          = (if kv.1 = sid then (kv.1, { kv.2 with finished_time := t }) else kv)
            :: setTime rest sid t := rfl
      rw [hcons]
      by_cases hk : kv.1 = sid
      · rw [if_pos hk]
        have hrest : ∀ kv2 ∈ rest, kv2.1 ≠ sid := by
          intro kv2 h2 heq
          exact hnodup.1 (List.mem_map.2 ⟨kv2, h2, by rw [heq, hk]⟩)
        rw [setTime_id sid t rest hrest, List.filter_cons]
        rw [filter_truthy_nil rest (fun kv2 h2 => hothers kv2 (by simp [h2]) (hrest kv2 h2))]
        by_cases ht : truthyTime ({ kv.2 with finished_time := t } : Player).finished_time = true
        · rw [if_pos ht]; simp
        · rw [if_neg ht]; simp
      · rw [if_neg hk, List.filter_cons,
          if_neg (by rw [hothers kv (by simp) hk]; decide)]
        exact ih hnodup.2 (fun kv2 h2 hne => hothers kv2 (by simp [h2]) hne)

/-- C7: once `game_finished` is set, `player_finished` is ignored entirely;
before that, a (duplicate) report from a slotted connection overwrites that
slot's recorded time without error and leaves every other slot untouched, and
no `game_over` is emitted while every other slot's recorded time is still
falsy (session not prematurely `Finished`). -/
theorem C7_duplicate_finish (st : ServerState) (sid : String) (t : Option String)
    (hnodup : (st.players.map Prod.fst).Nodup) :
    (st.game_finished = true → handle_player_finished sid t st = .ok (st, [])) ∧
    (st.game_finished = false → ∀ pl, lookupK st.players sid = some pl →
      ∃ st2 evs, handle_player_finished sid t st = .ok (st2, evs) ∧
        lookupK st2.players sid = some { pl with finished_time := t } ∧
        (∀ s2, s2 ≠ sid → lookupK st2.players s2 = lookupK st.players s2) ∧
        ((∀ kv ∈ st.players, kv.1 ≠ sid → truthyTime kv.2.finished_time = false) →
          st2.game_finished = false ∧ evs = [])) := by
  constructor
  · intro hfin
    unfold handle_player_finished
    rw [if_pos hfin]
  · intro hfin pl hlook
    unfold handle_player_finished
    rw [if_neg (by rw [hfin]; decide)]
    simp only [hlook]
    by_cases hlen : ((setTime st.players sid t).filter
        (fun kv => truthyTime kv.2.finished_time)).length = 2
    · rw [if_pos hlen]
      refine ⟨_, _, rfl, ?_, ?_, ?_⟩
      · show lookupK (setTime st.players sid t) sid = _
        rw [lookupK_setTime_self, hlook]
        rfl
      · intro s2 hs2
        exact lookupK_setTime_other st.players sid s2 t hs2
      · intro hothers
        exfalso
        have := finished_le_one sid t st.players hnodup hothers
        omega
    · rw [if_neg hlen]
      refine ⟨_, _, rfl, ?_, ?_, ?_⟩
      · show lookupK (setTime st.players sid t) sid = _
        rw [lookupK_setTime_self, hlook]
        rfl
      · intro s2 hs2
        exact lookupK_setTime_other st.players sid s2 t hs2
      · intro _
        exact ⟨hfin, rfl⟩

/-- Witness for C7: a second report from the same, already reported slot while
the other slot has not reported. -/
theorem C7_duplicate_finish_witness :
    ∃ st2 evs, handle_player_finished "a" (some "0:00:20")
      ⟨[("a", ⟨"Player A", some "0:00:10"⟩), ("b", ⟨"Player B", none⟩)], some 5, true, false⟩
      = .ok (st2, evs) ∧
      lookupK st2.players "a" = some ⟨"Player A", some "0:00:20"⟩ ∧
      (∀ s2, s2 ≠ "a" → lookupK st2.players s2 =
        lookupK [("a", (⟨"Player A", some "0:00:10"⟩ : Player)),
          ("b", ⟨"Player B", none⟩)] s2) ∧
      ((∀ kv ∈ [("a", (⟨"Player A", some "0:00:10"⟩ : Player)), ("b", ⟨"Player B", none⟩)],
          kv.1 ≠ "a" → truthyTime kv.2.finished_time = false) →
        st2.game_finished = false ∧ evs = []) :=
  (C7_duplicate_finish
    ⟨[("a", ⟨"Player A", some "0:00:10"⟩), ("b", ⟨"Player B", none⟩)], some 5, true, false⟩
    "a" (some "0:00:20") (by decide)).2 rfl ⟨"Player A", some "0:00:10"⟩ rfl

/-- C4: when the report that completes the pair arrives — from the
second-connected slot or, symmetrically, from the first-connected slot — the
session transitions to `Finished`, the winner is computed by parsing both time
strings as `datetime.strptime(_, '%H:%M:%S')` does (the strictly smaller
duration wins; ties and any parse failure, including leap-second strings the
`datetime` constructor rejects, fall back to the first slot in connection
order), no exception escapes, and the emitted `game_over` carries both
reported time strings verbatim in its `times` mapping. -/
theorem C4_winner_arbitration (s1 s2 : String) (p1 p2 : Player) (seed : Option Int)
    (gs : Bool) (t : String) (hne : s1 ≠ s2) (hids : p1.id ≠ p2.id) :
    (truthyTime p1.finished_time = true → truthyTime (some t) = true →
      handle_player_finished s2 (some t) ⟨[(s1, p1), (s2, p2)], seed, gs, false⟩ =
        .ok (⟨[(s1, p1), (s2, { p2 with finished_time := some t })], seed, gs, true⟩,
          [SEvent.game_over s1
            (some (match strptimeHMS (p1.finished_time.getD ""), strptimeHMS t with
              | some v1, some v2 => if v2 < v1 then p2.id else p1.id
              | _, _ => p1.id))
            [(p1.id, p1.finished_time), (p2.id, some t)],
           SEvent.game_over s2
            (some (match strptimeHMS (p1.finished_time.getD ""), strptimeHMS t with
              | some v1, some v2 => if v2 < v1 then p2.id else p1.id
              | _, _ => p1.id))
            [(p1.id, p1.finished_time), (p2.id, some t)]])) ∧
    (truthyTime p2.finished_time = true → truthyTime (some t) = true →
      handle_player_finished s1 (some t) ⟨[(s1, p1), (s2, p2)], seed, gs, false⟩ =
        .ok (⟨[(s1, { p1 with finished_time := some t }), (s2, p2)], seed, gs, true⟩,
          [SEvent.game_over s1
            (some (match strptimeHMS t, strptimeHMS (p2.finished_time.getD "") with
              | some v1, some v2 => if v2 < v1 then p2.id else p1.id
              | _, _ => p1.id))
            [(p1.id, some t), (p2.id, p2.finished_time)],
           SEvent.game_over s2
            (some (match strptimeHMS t, strptimeHMS (p2.finished_time.getD "") with
              | some v1, some v2 => if v2 < v1 then p2.id else p1.id
              | _, _ => p1.id))
            [(p1.id, some t), (p2.id, p2.finished_time)]])) := by
  constructor
  · intro h1 ht
    unfold handle_player_finished
    dsimp only
    rw [if_neg (show ¬(false = true) by decide)]
    have hlook : lookupK [(s1, p1), (s2, p2)] s2 = some p2 := by
      simp [lookupK, hne]
    simp only [hlook]
    have hset : setTime [(s1, p1), (s2, p2)] s2 (some t)
        = [(s1, p1), (s2, { p2 with finished_time := some t })] := by
      simp [setTime, hne]
    rw [hset]
    have hfilt : [(s1, p1), (s2, { p2 with finished_time := some t })].filter
        (fun kv => truthyTime kv.2.finished_time)
        = [(s1, p1), (s2, { p2 with finished_time := some t })] := by
      rw [List.filter_cons, if_pos (by simpa using h1), List.filter_cons,
        if_pos (by simpa using ht)]
      rfl
    have hlen2 : [(s1, p1), (s2, ({ p2 with finished_time := some t } : Player))].length = 2 :=
      rfl
    rw [hfilt, if_pos hlen2]
    have htimes : timesDict [(s1, p1), (s2, { p2 with finished_time := some t })]
        = [(p1.id, p1.finished_time), (p2.id, some t)] := by
      show dictSet (dictSet [] p1.id p1.finished_time) p2.id (some t) = _
      show dictSet [(p1.id, p1.finished_time)] p2.id (some t) = _
      show (if p1.id = p2.id then _
        else (p1.id, p1.finished_time) :: dictSet [] p2.id (some t)) = _
      rw [if_neg hids]
      rfl
    rw [htimes]
    rfl
  · intro h2 ht
    unfold handle_player_finished
    dsimp only
    rw [if_neg (show ¬(false = true) by decide)]
    have hne2 : s2 ≠ s1 := fun h => hne h.symm
    have hlook : lookupK [(s1, p1), (s2, p2)] s1 = some p1 := by
      simp [lookupK]
    simp only [hlook]
    have hset : setTime [(s1, p1), (s2, p2)] s1 (some t)
        = [(s1, { p1 with finished_time := some t }), (s2, p2)] := by
      simp [setTime, hne2]
    rw [hset]
    have hfilt : [(s1, ({ p1 with finished_time := some t } : Player)), (s2, p2)].filter
        (fun kv => truthyTime kv.2.finished_time)
        = [(s1, { p1 with finished_time := some t }), (s2, p2)] := by
      rw [List.filter_cons, if_pos (by simpa using ht), List.filter_cons,
        if_pos (by simpa using h2)]
      rfl
    have hlen2 : [(s1, ({ p1 with finished_time := some t } : Player)), (s2, p2)].length = 2 :=
      rfl
    rw [hfilt, if_pos hlen2]
    have htimes : timesDict [(s1, ({ p1 with finished_time := some t } : Player)), (s2, p2)]
        = [(p1.id, some t), (p2.id, p2.finished_time)] := by
      show dictSet (dictSet [] p1.id (some t)) p2.id p2.finished_time = _
      show dictSet [(p1.id, some t)] p2.id p2.finished_time = _
      show (if p1.id = p2.id then _
        else (p1.id, some t) :: dictSet [] p2.id p2.finished_time) = _
      rw [if_neg hids]
      rfl
    rw [htimes]
    rfl

/-- Witness for C4: the two spec scenarios — "00:00:45" beats "00:01:10", and
an unparsable "garbage" report falls back to the first-connected slot — plus
the leap-second string "00:00:60", which `datetime.strptime` rejects (fallback
again, even though "00:00:60" would beat "00:01:10" numerically), and the
symmetric order in which the first-connected slot reports last. -/
theorem C4_winner_arbitration_witness :
    (handle_player_finished "b" (some "00:01:10")
      ⟨[("a", ⟨"Player A", some "00:00:45"⟩), ("b", ⟨"Player B", none⟩)], some 7, true, false⟩ =
      .ok (⟨[("a", ⟨"Player A", some "00:00:45"⟩), ("b", ⟨"Player B", some "00:01:10"⟩)],
          some 7, true, true⟩,
        [SEvent.game_over "a" (some "Player A")
          [("Player A", some "00:00:45"), ("Player B", some "00:01:10")],
         SEvent.game_over "b" (some "Player A")
          [("Player A", some "00:00:45"), ("Player B", some "00:01:10")]])) ∧
    (handle_player_finished "b" (some "00:00:45")
      ⟨[("a", ⟨"Player A", some "garbage"⟩), ("b", ⟨"Player B", none⟩)], some 7, true, false⟩ =
      .ok (⟨[("a", ⟨"Player A", some "garbage"⟩), ("b", ⟨"Player B", some "00:00:45"⟩)],
          some 7, true, true⟩,
        [SEvent.game_over "a" (some "Player A")
          [("Player A", some "garbage"), ("Player B", some "00:00:45")],
         SEvent.game_over "b" (some "Player A")
          [("Player A", some "garbage"), ("Player B", some "00:00:45")]])) ∧
    (handle_player_finished "b" (some "00:00:60")
      ⟨[("a", ⟨"Player A", some "00:01:10"⟩), ("b", ⟨"Player B", none⟩)], some 7, true, false⟩ =
      .ok (⟨[("a", ⟨"Player A", some "00:01:10"⟩), ("b", ⟨"Player B", some "00:00:60"⟩)],
          some 7, true, true⟩,
        [SEvent.game_over "a" (some "Player A")
          [("Player A", some "00:01:10"), ("Player B", some "00:00:60")],
         SEvent.game_over "b" (some "Player A")
          [("Player A", some "00:01:10"), ("Player B", some "00:00:60")]])) ∧
    (handle_player_finished "a" (some "00:00:45")
      ⟨[("a", ⟨"Player A", none⟩), ("b", ⟨"Player B", some "00:01:10"⟩)], some 7, true, false⟩ =
      .ok (⟨[("a", ⟨"Player A", some "00:00:45"⟩), ("b", ⟨"Player B", some "00:01:10"⟩)],
          some 7, true, true⟩,
        [SEvent.game_over "a" (some "Player A")
          [("Player A", some "00:00:45"), ("Player B", some "00:01:10")],
         SEvent.game_over "b" (some "Player A")
          [("Player A", some "00:00:45"), ("Player B", some "00:01:10")]])) := by
  refine ⟨?_, ?_, ?_, ?_⟩
  · have h := (C4_winner_arbitration "a" "b" ⟨"Player A", some "00:00:45"⟩ ⟨"Player B", none⟩
      (some 7) true "00:01:10" (by decide) (by decide)).1 (by decide) (by decide)
    exact h
  · have h := (C4_winner_arbitration "a" "b" ⟨"Player A", some "garbage"⟩ ⟨"Player B", none⟩
      (some 7) true "00:00:45" (by decide) (by decide)).1 (by decide) (by decide)
    exact h
  · have h := (C4_winner_arbitration "a" "b" ⟨"Player A", some "00:01:10"⟩ ⟨"Player B", none⟩
      (some 7) true "00:00:60" (by decide) (by decide)).1 (by decide) (by decide)
    exact h
  · have h := (C4_winner_arbitration "a" "b" ⟨"Player A", none⟩ ⟨"Player B", some "00:01:10"⟩
      (some 7) true "00:00:45" (by decide) (by decide)).2 (by decide) (by decide)
    exact h

end Minesweeper
